import Mathlib

/-!
# gastown merge-queue commands

A shallow embedding of `internal/cmd/mq_list.go` (`runMQList`, `formatMRAge`,
`outputJSON`) and `internal/cmd/mq.go` (`init`, `runMQReject`), followed by the
properties of the merge-queue view and of the rejection command.

Conventions of the embedding:

* Go `string` is `String`; Go `int` and `time.Duration` are `Int` (a duration
  is a number of nanoseconds in the `int64` range).
* Go `float64` is modelled exactly: a finite binary64 value is a pair
  `m * 2 ^ e`, and every arithmetic operation is the exact rational result
  rounded to nearest, ties to even, as IEEE 754 prescribes.
* The issue store, the refinery manager, `beads.ParseMRFields`, `time.Parse`
  and the wall clock are collaborators outside these two files; they are
  parameters of the definitions.
* A run of a command returns its error, the store calls it issued (in order)
  and what it printed.
-/

namespace Gastown

/-! ## Go errors -/

/-- Go error values: a leaf error, or the result of `fmt.Errorf(context + "%w", inner)`. -/
inductive GoError where
  | leaf (msg : String)
  | wrapped (context : String) (inner : GoError)
  deriving DecidableEq, Repr

/-- The `Error()` text: `%w` prints the wrapped error after the context. -/
def GoError.Error : GoError → String
  | .leaf msg => msg
  | .wrapped context inner => context ++ inner.Error

/-- The `Unwrap()` method that `fmt.Errorf` with `%w` provides. -/
def GoError.Unwrap : GoError → Option GoError
  | .leaf _ => none
  | .wrapped _ inner => some inner

/-! ## binary64 arithmetic -/

/-- A finite `float64` value `m * 2 ^ e`. -/
structure Float64 where
  m : Int
  e : Int
  deriving DecidableEq, Repr

/-- Number of binary digits of `n`, computed with at most `fuel` halvings;
`bitLen n n` is the number of binary digits of `n`. -/
def bitLen : Nat → Nat → Nat
  | 0, _ => 0
  | fuel + 1, n => if n = 0 then 0 else bitLen fuel (n / 2) + 1

/-- For positive `num` and `den`: the integer `l` with `2 ^ l ≤ num / den < 2 ^ (l + 1)`. -/
def floorLog2 (num den : Nat) : Int :=
  let l : Int := (bitLen num num : Int) - (bitLen den den : Int)
  if den * 2 ^ l.toNat ≤ num * 2 ^ (-l).toNat then l else l - 1

/-- The integer nearest to `num / (den * 2 ^ e)`, a tie going to the even one. -/
def roundHalfEven (num den : Nat) (e : Int) : Nat :=
  let n := num * 2 ^ (-e).toNat
  let d := den * 2 ^ e.toNat
  let q := n / d
  let r := n % d
  if 2 * r < d then q
  else if d < 2 * r then q + 1
  else if q % 2 = 0 then q else q + 1

/-- The binary64 value nearest to the rational `num / den` (round to nearest,
ties to even; 53 significant bits, least exponent -1074). Overflow to an
infinity is not modelled: every value this file rounds is below `2 ^ 64`. -/
def roundFloat64 (num : Int) (den : Nat) : Float64 :=
  if num = 0 ∨ den = 0 then ⟨0, 0⟩
  else
    let e : Int := max (floorLog2 num.natAbs den - 52) (-1074)
    let m : Nat := roundHalfEven num.natAbs den e
    ⟨if num < 0 then -(m : Int) else (m : Int), e⟩

/-- The exact value of a `Float64` as numerator and denominator. -/
def Float64.num (x : Float64) : Int := x.m * 2 ^ x.e.toNat

/-- Denominator of the exact value of a `Float64`. -/
def Float64.den (x : Float64) : Nat := 2 ^ (-x.e).toNat

/-- Go conversion `float64(n)` of an integer. -/
def Float64.ofInt (n : Int) : Float64 := roundFloat64 n 1

/-- Go `x + y` on `float64`. -/
def Float64.add (x y : Float64) : Float64 :=
  roundFloat64 (x.num * y.den + y.num * x.den) (x.den * y.den)

/-- Go `x / y` on `float64`, for `y` different from zero. -/
def Float64.div (x y : Float64) : Float64 :=
  roundFloat64 (if y.num < 0 then -(x.num * y.den) else x.num * y.den) (y.num.natAbs * x.den)

/-- Go conversion `int(x)` of a `float64`: the fraction is discarded (truncation toward zero). -/
def Float64.toInt (x : Float64) : Int := Int.tdiv x.num x.den

/-! ## time.Duration -/

/-- Constant `time.Second`, in nanoseconds. -/
def Second : Int := 1000000000

/-- Constant `time.Minute`. -/
def Minute : Int := 60 * Second

/-- Constant `time.Hour`. -/
def Hour : Int := 60 * Minute

/-- Method `Duration.Seconds`: `float64(d / Second) + float64(d % Second) / 1e9`. -/
def Duration.Seconds (d : Int) : Float64 :=
  let sec := Int.tdiv d Second
  let nsec := Int.tmod d Second
  (Float64.ofInt sec).add ((Float64.ofInt nsec).div (Float64.ofInt 1000000000))

/-- Method `Duration.Minutes`: `float64(d / Minute) + float64(d % Minute) / (60 * 1e9)`. -/
def Duration.Minutes (d : Int) : Float64 :=
  let min := Int.tdiv d Minute
  let nsec := Int.tmod d Minute
  (Float64.ofInt min).add ((Float64.ofInt nsec).div (Float64.ofInt 60000000000))

/-- Method `Duration.Hours`: `float64(d / Hour) + float64(d % Hour) / (60 * 60 * 1e9)`. -/
def Duration.Hours (d : Int) : Float64 :=
  let hour := Int.tdiv d Hour
  let nsec := Int.tmod d Hour
  (Float64.ofInt hour).add ((Float64.ofInt nsec).div (Float64.ofInt 3600000000000))

/-- The wall clock and the two `time.Parse` layouts `formatMRAge` tries. An
instant is a number of nanoseconds on the time line. -/
structure Clock where
  /-- Result of `time.Parse(time.RFC3339, s)`; `none` is a parse error. -/
  parseRFC3339 : String → Option Int
  /-- Result of `time.Parse("2006-01-02T15:04:05Z", s)`. -/
  parseZulu : String → Option Int
  /-- Instant returned by `time.Now()`. -/
  now : Int

/-- Function `time.Since(t)`, that is `time.Now().Sub(t)`: the difference,
saturated to the range of `int64`. -/
def Clock.Since (c : Clock) (t : Int) : Int :=
  max (-9223372036854775808) (min 9223372036854775807 (c.now - t))

/-- The four buckets of `formatMRAge`, applied to the elapsed duration `d`. -/
def formatDuration (d : Int) : String :=
  if d < Minute then
    toString (Duration.Seconds d).toInt ++ "s"
  else if d < Hour then
    toString (Duration.Minutes d).toInt ++ "m"
  else if d < 24 * Hour then
    toString (Duration.Hours d).toInt ++ "h"
  else
    toString ((Duration.Hours d).div (Float64.ofInt 24)).toInt ++ "d"

/-- Function `formatMRAge`: the age of an MR from its created_at timestamp. -/
def formatMRAge (clock : Clock) (createdAt : String) : String :=
  match clock.parseRFC3339 createdAt with
  | some t => formatDuration (clock.Since t)
  | none =>
    match clock.parseZulu createdAt with
    | some t => formatDuration (clock.Since t)
    | none => "?"

/-! ## Data model (package beads) -/

/-- The fields of `beads.Issue` that the two commands read. -/
structure Issue where
  ID : String
  /-- Field `Type` of the source. -/
  Type_ : String
  Status : String
  Priority : Int
  BlockedBy : List String
  BlockedByCount : Int
  CreatedAt : String
  deriving DecidableEq, Repr

/-- Result of `beads.ParseMRFields` when the issue carries MR fields. -/
structure MRFields where
  Branch : String
  Worker : String
  Target : String
  deriving DecidableEq, Repr

/-- Query options `beads.ListOptions` as far as `runMQList` sets them; a
field the code leaves unset holds the zero value `""`. -/
structure ListOptions where
  /-- Field `Type` of the source. -/
  Type_ : String
  Priority : Int
  Status : String
  deriving DecidableEq, Repr

/-- What `Manager.RejectMR` returns on success. -/
structure RejectionResult where
  Branch : String
  Worker : String
  IssueID : String
  deriving DecidableEq, Repr

/-- A call on the issue store or the refinery manager, as a run records it. -/
inductive StoreCall where
  | Ready
  | List (opts : ListOptions)
  | RejectMR (idOrBranch reason : String) (notify : Bool)
  deriving DecidableEq, Repr

/-- The store handle `b` returned by `beads.New`: its two queries. A query
reads the store and changes nothing. -/
structure Beads where
  Ready : Except GoError (List Issue)
  List : ListOptions → Except GoError (List Issue)

/-! ## strings.EqualFold -/

/-- Go `strings.EqualFold` on valid UTF-8 strings, rune by rune. The loop over
single-byte runes is the one of the source; from the first position where
either string holds a rune of two or more bytes, the function continues on
the two remainders with Unicode simple folding, whose tables are not part of
this development: that continuation is the parameter `hasUnicode`. -/
def strings.EqualFoldRunes (hasUnicode : List Char → List Char → Bool) :
    List Char → List Char → Bool
  | [], [] => true
  | [], _ :: _ => false
  | _ :: _, [] => false
  | sr :: s, tr :: t =>
    if 128 ≤ sr.toNat ∨ 128 ≤ tr.toNat then hasUnicode (sr :: s) (tr :: t)
    else if tr = sr then strings.EqualFoldRunes hasUnicode s t
    else
      let lo := if tr.toNat < sr.toNat then tr else sr
      let hi := if tr.toNat < sr.toNat then sr else tr
      if 65 ≤ lo.toNat ∧ lo.toNat ≤ 90 ∧ hi.toNat = lo.toNat + 32 then
        strings.EqualFoldRunes hasUnicode s t
      else false

/-- Go `strings.EqualFold(s, t)`. -/
def strings.EqualFold (hasUnicode : List Char → List Char → Bool) (s t : String) : Bool :=
  strings.EqualFoldRunes hasUnicode s.data t.data

/-! ## runMQList -/

/-- The package-level flag variables of the list command. -/
structure MQListFlags where
  mqListStatus : String
  mqListReady : Bool
  mqListWorker : String
  mqListEpic : String
  mqListJSON : Bool
  deriving DecidableEq, Repr

/-- The styles of package style that the two commands use. -/
inductive Style where
  | Bold
  | Dim
  | Success
  | Warning
  | Error
  deriving DecidableEq, Repr

/-- The collaborators of `runMQList`. -/
structure ListEnv where
  /-- Rig lookup `getRefineryManager(rigName)`: the beads path of the rig
  (`r.BeadsPath()`), or the error. -/
  getRefineryManager : String → Except GoError String
  /-- Constructor `beads.New(path)`. -/
  beadsNew : String → Beads
  /-- Function `beads.ParseMRFields`; `none` is the nil result. -/
  ParseMRFields : Issue → Option MRFields
  /-- Unicode continuation of `strings.EqualFold`. -/
  hasUnicode : List Char → List Char → Bool
  /-- Clock and timestamp parser used by `formatMRAge`. -/
  clock : Clock
  /-- Method `Render` of a style. -/
  render : Style → String → String

/-- Lines 26-39: the list options. -/
def buildListOptions (flags : MQListFlags) : ListOptions :=
  let opts : ListOptions := { Type_ := "merge-request", Priority := -1, Status := "" }
  if flags.mqListStatus ≠ "" then { opts with Status := flags.mqListStatus }
  else if !flags.mqListReady then { opts with Status := "open" }
  else opts

/-- Lines 50-54: the loop that keeps the merge-request issues of `allReady`. -/
def keepMergeRequests (allReady : List Issue) : List Issue :=
  allReady.foldl (fun issues issue =>
    if issue.Type_ = "merge-request" then issues ++ [issue] else issues) []

/-- Lines 41-60: the base query. Returns the store calls issued and either the
wrapped error or the candidate issues. -/
def baseQuery (b : Beads) (flags : MQListFlags) (opts : ListOptions) :
    List StoreCall × Except GoError (List Issue) :=
  if flags.mqListReady then
    match b.Ready with
    | .error err => ([StoreCall.Ready], .error (GoError.wrapped "querying ready MRs: " err))
    | .ok allReady => ([StoreCall.Ready], .ok (keepMergeRequests allReady))
  else
    match b.List opts with
    | .error err => ([StoreCall.List opts], .error (GoError.wrapped "querying merge queue: " err))
    | .ok issues => ([StoreCall.List opts], .ok issues)

/-- Lines 66-89: the body of the filter loop; `false` is a `continue`. -/
def passesFilters (env : ListEnv) (flags : MQListFlags) (issue : Issue) : Bool :=
  let fields := env.ParseMRFields issue
  if flags.mqListWorker ≠ "" ∧
      ¬ strings.EqualFold env.hasUnicode
          (match fields with | some f => f.Worker | none => "") flags.mqListWorker then
    false
  else if flags.mqListEpic ≠ "" ∧
      (match fields with | some f => f.Target | none => "") ≠ "integration/" ++ flags.mqListEpic then
    false
  else
    true

/-- Lines 62-92: the loop that builds `filtered`. -/
def applyFilters (env : ListEnv) (flags : MQListFlags) (issues : List Issue) : List Issue :=
  issues.foldl (fun filtered issue =>
    if passesFilters env flags issue then filtered ++ [issue] else filtered) []

/-- Lines 121-129: the display status of a row. -/
def displayStatus (issue : Issue) : String :=
  if issue.Status = "open" then
    if issue.BlockedBy.length > 0 ∨ issue.BlockedByCount > 0 then "blocked" else "ready"
  else issue.Status

/-- Lines 176-179: the status used by the blocking details below the table. -/
def detailStatus (issue : Issue) : String :=
  if issue.Status = "open" ∧ (issue.BlockedBy.length > 0 ∨ issue.BlockedByCount > 0) then "blocked"
  else issue.Status

/-- Lines 131-142: the status cell, the display status with its style; an
MR in progress is labelled `active`. -/
def styledStatus (env : ListEnv) (displayStatus : String) : String :=
  if displayStatus = "ready" then env.render Style.Success "ready"
  else if displayStatus = "in_progress" then env.render Style.Warning "active"
  else if displayStatus = "blocked" then env.render Style.Dim "blocked"
  else if displayStatus = "closed" then env.render Style.Dim "closed"
  else displayStatus

/-- Lines 152-158: the priority cell. -/
def styledPriority (env : ListEnv) (issue : Issue) : String :=
  if issue.Priority ≤ 1 then env.render Style.Error ("P" ++ toString issue.Priority)
  else if issue.Priority = 2 then env.render Style.Warning ("P" ++ toString issue.Priority)
  else "P" ++ toString issue.Priority

/-- What one iteration of the row loop computes: the issue (whose ID, cut to
12 bytes, is the first cell), the local variable `displayStatus`, and the
cells given to `table.AddRow`. Column widths and alignment belong to package
style and are not modelled. -/
structure Row where
  issue : Issue
  displayStatus : String
  styledStatus : String
  priority : String
  branch : String
  worker : String
  age : String
  deriving DecidableEq, Repr

/-- Lines 118-170: the row of one issue. -/
def makeRow (env : ListEnv) (issue : Issue) : Row :=
  let fields := env.ParseMRFields issue
  { issue := issue
    displayStatus := displayStatus issue
    styledStatus := styledStatus env (displayStatus issue)
    priority := styledPriority env issue
    branch := match fields with | some f => f.Branch | none => ""
    worker := match fields with | some f => f.Worker | none => ""
    age := env.render Style.Dim (formatMRAge env.clock issue.CreatedAt) }

/-- What a run of the list command writes to standard output. -/
inductive Printed where
  /-- Function `outputJSON(filtered)`: the encoder writes the issues. -/
  | json (data : List Issue)
  /-- The header line with the rig name. -/
  | header (rigName : String)
  /-- The line `(empty)`. -/
  | empty
  /-- The rendered table. -/
  | table (rows : List Row)
  /-- A line `<id>: waiting on <blocker>`. -/
  | waitingOn (issue : Issue) (blocker : String)
  deriving DecidableEq, Repr

/-- Lines 175-188: the blocking details. -/
def blockingDetails (filtered : List Issue) : List Printed :=
  filtered.filterMap (fun issue =>
    match issue.BlockedBy with
    | blocker :: _ => if detailStatus issue = "blocked" then some (Printed.waitingOn issue blocker) else none
    | [] => none)

/-- Outcome of a run of `runMQList`. -/
structure MQListRun where
  /-- The returned error; `none` is nil. -/
  err : Option GoError
  /-- The store calls issued, in order. -/
  calls : List StoreCall
  /-- What was printed, in order. -/
  stdout : List Printed
  deriving DecidableEq, Repr

/-- Function `outputJSON`: encodes `data` to standard output. Writing to
standard output is taken to succeed, so the result is nil. -/
def outputJSON (data : List Issue) : Option GoError × List Printed :=
  (none, [Printed.json data])

/-- Lines 16-92 of `runMQList`, with `rigName = args[0]`: the store calls
issued and either the error the function returns or the value of `filtered`. -/
def queryAndFilter (env : ListEnv) (flags : MQListFlags) (rigName : String) :
    List StoreCall × Except GoError (List Issue) :=
  match env.getRefineryManager rigName with
  | .error err => ([], .error err)
  | .ok path =>
    let b := env.beadsNew path
    let opts := buildListOptions flags
    match baseQuery b flags opts with
    | (calls, .error err) => (calls, .error err)
    | (calls, .ok issues) => (calls, .ok (applyFilters env flags issues))

/-- Function `runMQList`: lines 16-92 followed by the output of lines 94-190. -/
def runMQList (env : ListEnv) (flags : MQListFlags) (rigName : String) : MQListRun :=
  match queryAndFilter env flags rigName with
  | (calls, .error err) => { err := some err, calls := calls, stdout := [] }
  | (calls, .ok filtered) =>
    if flags.mqListJSON then
      { err := (outputJSON filtered).1, calls := calls, stdout := (outputJSON filtered).2 }
    else if filtered.length = 0 then
      { err := none, calls := calls, stdout := [Printed.header rigName, Printed.empty] }
    else
      { err := none, calls := calls,
        stdout := [Printed.header rigName, Printed.table (filtered.map (makeRow env))]
          ++ blockingDetails filtered }

/-! ## The reject command -/

/-- The refinery manager `mgr` over a store of type `σ`: its method
`RejectMR(idOrBranch, reason, notify)` returns a result or an error and leaves
the store in a new state. -/
structure Manager (σ : Type) where
  RejectMR : String → String → Bool → σ → Except GoError RejectionResult × σ

/-- The collaborators of `runMQReject`. -/
structure RejectEnv (σ : Type) where
  /-- Rig lookup `getRefineryManager(rigName)`: the manager, or the error. -/
  getRefineryManager : String → Except GoError (Manager σ)
  /-- Method `Render` of a style. -/
  render : Style → String → String

/-- Outcome of a run of the reject command. -/
structure MQRejectRun (σ : Type) where
  /-- The returned error; `none` is nil. -/
  err : Option GoError
  /-- The store calls issued, in order. -/
  calls : List StoreCall
  /-- The lines printed, in order. -/
  stdout : List String
  /-- The store after the run. -/
  store : σ

/-- Lines 66-76: the report of a successful rejection. -/
def rejectReport {σ : Type} (env : RejectEnv σ) (result : RejectionResult)
    (mqRejectReason : String) (mqRejectNotify : Bool) : List String :=
  [env.render Style.Bold "✗" ++ " Rejected: " ++ result.Branch,
   "  Worker: " ++ result.Worker,
   "  Reason: " ++ mqRejectReason]
  ++ (if result.IssueID ≠ "" then
        ["  Issue:  " ++ result.IssueID ++ " " ++ env.render Style.Dim "(not closed - work not done)"]
      else [])
  ++ (if mqRejectNotify then ["  " ++ env.render Style.Dim "Worker notified via mail"] else [])

/-- Function `runMQReject`, with `rigName = args[0]`, `mrIDOrBranch = args[1]`
and the two flag variables as arguments. -/
def runMQReject {σ : Type} (env : RejectEnv σ) (mqRejectReason : String) (mqRejectNotify : Bool)
    (rigName mrIDOrBranch : String) (store : σ) : MQRejectRun σ :=
  match env.getRefineryManager rigName with
  | .error err => { err := some err, calls := [], stdout := [], store := store }
  | .ok mgr =>
    match mgr.RejectMR mrIDOrBranch mqRejectReason mqRejectNotify store with
    | (.error err, store1) =>
      { err := some (GoError.wrapped "rejecting MR: " err),
        calls := [StoreCall.RejectMR mrIDOrBranch mqRejectReason mqRejectNotify],
        stdout := [], store := store1 }
    | (.ok result, store1) =>
      { err := none,
        calls := [StoreCall.RejectMR mrIDOrBranch mqRejectReason mqRejectNotify],
        stdout := rejectReport env result mqRejectReason mqRejectNotify,
        store := store1 }

/-- A command line of `gt mq reject` after cobra has split it: the positional
arguments, and for each flag its value when the flag is given. -/
structure RejectCommandLine where
  args : List String
  /-- Value of `--reason` (or `-r`); `none` when the flag is absent. -/
  reason : Option String
  /-- Value of `--notify`; `none` when the flag is absent. -/
  notify : Option Bool
  deriving DecidableEq, Repr

/-- The errors cobra itself returns for the reject command. -/
structure CobraErrors where
  /-- Error of `cobra.ExactArgs(2)` for a given number of arguments. -/
  wrongArgs : Nat → GoError
  /-- Error of the required-flag check for the flag `reason`. -/
  reasonNotSet : GoError

/-- Execution of `mqRejectCmd` as `init` registers it. The flag variables get
their defaults (`""`, `false`) or the values given; `Args: cobra.ExactArgs(2)`
is checked; the flag marked by `MarkFlagRequired("reason")` must have been
given (cobra tests that the flag was set, not what it was set to); then
`RunE` runs. -/
def executeReject {σ : Type} (env : RejectEnv σ) (cobra : CobraErrors)
    (line : RejectCommandLine) (store : σ) : MQRejectRun σ :=
  let mqRejectReason := line.reason.getD ""
  let mqRejectNotify := line.notify.getD false
  match line.args with
  | [rigName, mrIDOrBranch] =>
    if line.reason.isNone then
      { err := some cobra.reasonNotSet, calls := [], stdout := [], store := store }
    else
      runMQReject env mqRejectReason mqRejectNotify rigName mrIDOrBranch store
  | _ => { err := some (cobra.wrongArgs line.args.length), calls := [], stdout := [], store := store }

/-! ## Specification-side notions -/

/-- The worker the filter compares: the extracted `Worker`, or `""` when the
issue has no MR fields. -/
def extractedWorker (env : ListEnv) (issue : Issue) : String :=
  match env.ParseMRFields issue with
  | some f => f.Worker
  | none => ""

/-- The target the filter compares: the extracted `Target`, or `""` when the
issue has no MR fields. -/
def extractedTarget (env : ListEnv) (issue : Issue) : String :=
  match env.ParseMRFields issue with
  | some f => f.Target
  | none => ""

/-- Lower case of a single-byte rune, as a code point: `A`-`Z` go to `a`-`z`,
every other rune stays. -/
def asciiLower (c : Char) : Nat :=
  if 65 ≤ c.toNat ∧ c.toNat ≤ 90 then c.toNat + 32 else c.toNat

/-- The age as the specification words it: the elapsed duration divided by
the unit of its bucket, the quotient truncated toward zero, followed by the
letter of the unit. -/
def truncatedAge (d : Int) : String :=
  if d < Minute then toString (Int.tdiv d Second) ++ "s"
  else if d < Hour then toString (Int.tdiv d Minute) ++ "m"
  else if d < 24 * Hour then toString (Int.tdiv d Hour) ++ "h"
  else toString (Int.tdiv d (24 * Hour)) ++ "d"

/-- The float of opposite sign. -/
def Float64.neg (x : Float64) : Float64 := ⟨-x.m, x.e⟩

/-- The float `x` is not negative, has an exponent of at most zero, and its
value lies between `lo` and `hi / 2 ^ b`. -/
def Float64.Between (x : Float64) (lo hi b : Nat) : Prop :=
  ∃ m a : Nat, x = ⟨(m : Int), -(a : Int)⟩ ∧ lo * 2 ^ a ≤ m ∧ m * 2 ^ b ≤ hi * 2 ^ a

/-- The status of the issue `id` in a store that is a list of issues. -/
def statusOf (store : List Issue) (id : String) : Option String :=
  (store.find? (fun i => i.ID = id)).map (fun i => i.Status)

/-- The issues a run of the list command shows: those the JSON encoder wrote,
or those of the rows of the table. -/
def listedIssues : List Printed → List Issue
  | [] => []
  | Printed.json data :: rest => data ++ listedIssues rest
  | Printed.table rows :: rest => rows.map (fun r => r.issue) ++ listedIssues rest
  | _ :: rest => listedIssues rest

/-! ## Concrete stores and environments used for the instances -/

/-- An open merge request of worker Nux. -/
def mrNux : Issue :=
  { ID := "mr-1", Type_ := "merge-request", Status := "open", Priority := 2,
    BlockedBy := [], BlockedByCount := 0, CreatedAt := "2025-01-01T00:00:00Z" }

/-- An open merge request of worker Toast that waits on another issue. -/
def mrToast : Issue :=
  { ID := "mr-2", Type_ := "merge-request", Status := "open", Priority := 1,
    BlockedBy := ["gt-7"], BlockedByCount := 1, CreatedAt := "2025-01-01T00:00:00Z" }

/-- A task, not a merge request, without MR fields. -/
def taskIssue : Issue :=
  { ID := "gt-xyz", Type_ := "task", Status := "open", Priority := 2,
    BlockedBy := [], BlockedByCount := 0, CreatedAt := "not a time" }

/-- MR fields of the example issues: the two merge requests carry fields, the task none. -/
def exampleFields (issue : Issue) : Option MRFields :=
  if issue.ID = "mr-1" then
    some { Branch := "polecat/Nux/gt-xyz", Worker := "Nux", Target := "integration/gastown" }
  else if issue.ID = "mr-2" then
    some { Branch := "polecat/Toast/gt-abc", Worker := "Toast", Target := "integration/gastown-v2" }
  else none

/-- A clock whose parser knows the timestamp of the example issues (instant 0)
and whose `time.Now()` is `now`. -/
def exampleClock (now : Int) : Clock :=
  { parseRFC3339 := fun s => if s = "2025-01-01T00:00:00Z" then some 0 else none
    parseZulu := fun _ => none
    now := now }

/-- A store handle over a fixed list of issues: `Ready` returns the issues
without blockers of every type, `List` those matching the options. -/
def exampleBeads (store : List Issue) : Beads :=
  { Ready := .ok (store.filter (fun i => i.Status = "open" ∧ i.BlockedBy = [] ∧ i.BlockedByCount ≤ 0))
    List := fun opts => .ok (store.filter (fun i =>
      (opts.Type_ = "" ∨ i.Type_ = opts.Type_) ∧ (opts.Status = "" ∨ i.Status = opts.Status) ∧
      (opts.Priority < 0 ∨ i.Priority = opts.Priority))) }

/-- A store handle whose queries fail. -/
def brokenBeads : Beads :=
  { Ready := .error (GoError.leaf "bd ready: exit status 1")
    List := fun _ => .error (GoError.leaf "bd list: exit status 1") }

/-- The environment of the list command over the rig `gastown` holding the
three example issues; the rig `broken` has a store whose queries fail, and any
other rig name is unknown. -/
def exampleListEnv : ListEnv :=
  { getRefineryManager := fun rig =>
      if rig = "gastown" then .ok "gastown/.beads"
      else if rig = "broken" then .ok "broken/.beads"
      else .error (GoError.leaf ("rig not found: " ++ rig))
    beadsNew := fun path =>
      if path = "gastown/.beads" then exampleBeads [mrNux, taskIssue, mrToast] else brokenBeads
    ParseMRFields := exampleFields
    hasUnicode := fun _ _ => false
    clock := exampleClock 300000000000
    render := fun _ s => s }

/-- Modelled from the spec: the refinery manager method `RejectMR`, whose code
is not among the sources, as section 4.5 describes it. The identifier resolves
to the first merge request with that ID or that branch; resolution fails when
there is none, the transition fails when the MR is already closed or rejected;
otherwise the status of the MR, and of no other issue, becomes `rejected`. The
result names the source issue `sourceOf mr`. -/
def specRejectMR (parse : Issue → Option MRFields) (sourceOf : Issue → String)
    (idOrBranch _reason : String) (_notify : Bool) (store : List Issue) :
    Except GoError RejectionResult × List Issue :=
  match store.find? (fun i => i.Type_ = "merge-request" ∧
      (i.ID = idOrBranch ∨ (parse i).map (fun f => f.Branch) = some idOrBranch)) with
  | none => (.error (GoError.leaf ("merge request not found: " ++ idOrBranch)), store)
  | some mr =>
    if mr.Status = "closed" ∨ mr.Status = "rejected" then
      (.error (GoError.leaf ("merge request is already " ++ mr.Status)), store)
    else
      (.ok { Branch := match parse mr with | some f => f.Branch | none => ""
             Worker := match parse mr with | some f => f.Worker | none => ""
             IssueID := sourceOf mr },
       store.map (fun i => if i.ID = mr.ID then { i with Status := "rejected" } else i))

/-- The environment of the reject command over the rig `gastown`; the source
issue of every MR is the task `gt-xyz`. Any other rig name is unknown. -/
def exampleRejectEnv : RejectEnv (List Issue) :=
  { getRefineryManager := fun rig =>
      if rig = "gastown" then .ok { RejectMR := specRejectMR exampleFields (fun _ => "gt-xyz") }
      else .error (GoError.leaf ("rig not found: " ++ rig))
    render := fun _ s => s }

/-- The errors of cobra, as leaf errors. -/
def exampleCobra : CobraErrors :=
  { wrongArgs := fun n => GoError.leaf ("accepts 2 arg(s), received " ++ toString n)
    reasonNotSet := GoError.leaf "required flag(s) reason not set" }

/-! ## Status derivation -/

/-- The blocking details hold no table. -/
theorem table_not_mem_blockingDetails (filtered : List Issue) (rows : List Row) :
    Printed.table rows ∉ blockingDetails filtered := by
  unfold blockingDetails
  intro hmem
  rw [List.mem_filterMap] at hmem
  obtain ⟨issue, _, hsome⟩ := hmem
  cases hb : issue.BlockedBy with
  | nil => simp [hb] at hsome
  | cons blocker more =>
    simp only [hb] at hsome
    split_ifs at hsome
    cases hsome

/-- Every row of a table that `runMQList` prints is the row `makeRow` of an issue. -/
theorem table_rows_of_run (env : ListEnv) (flags : MQListFlags) (rigName : String)
    (rows : List Row) (hmem : Printed.table rows ∈ (runMQList env flags rigName).stdout) :
    ∀ r ∈ rows, ∃ issue, r = makeRow env issue := by
  unfold runMQList at hmem
  generalize queryAndFilter env flags rigName = q at hmem
  rcases q with ⟨calls, res⟩
  cases res with
  | error err => simp at hmem
  | ok filtered =>
    simp only [outputJSON] at hmem
    split_ifs at hmem
    · simp at hmem
    · simp at hmem
    · have hmem2 : Printed.table rows ∈ Printed.header rigName ::
          Printed.table (filtered.map (makeRow env)) :: blockingDetails filtered := hmem
      simp only [List.mem_cons, Printed.table.injEq] at hmem2
      rcases hmem2 with hfalse | hrows | hdet
      · cases hfalse
      · intro r hr
        rw [hrows, List.mem_map] at hr
        obtain ⟨issue, _, hissue⟩ := hr
        exact ⟨issue, hissue.symm⟩
      · exact absurd hdet (table_not_mem_blockingDetails filtered rows)

/-- C1. The display status that `runMQList` puts in the row of an issue is a
total mapping of the raw status and the two blocker signals: for an open issue
it is `blocked` when `BlockedBy` is non-empty or `BlockedByCount` is positive
and `ready` otherwise (a negative count with an empty `BlockedBy` included);
for every other raw status it is the raw status unchanged. Every row of every
table that a run prints carries this status of its issue. -/
theorem displayStatus_total_mapping (env : ListEnv) (issue : Issue) :
    (makeRow env issue).displayStatus = displayStatus issue ∧
    (∀ (flags : MQListFlags) (rigName : String) (rows : List Row),
      Printed.table rows ∈ (runMQList env flags rigName).stdout →
      ∀ r ∈ rows, r.displayStatus = displayStatus r.issue) ∧
    (issue.Status = "open" → (issue.BlockedBy.length > 0 ∨ issue.BlockedByCount > 0) →
      displayStatus issue = "blocked") ∧
    (issue.Status = "open" → issue.BlockedBy = [] → issue.BlockedByCount ≤ 0 →
      displayStatus issue = "ready") ∧
    (issue.Status ≠ "open" → displayStatus issue = issue.Status) ∧
    (displayStatus issue = "blocked" ∨ displayStatus issue = "ready" ∨
      displayStatus issue = issue.Status) := by
  refine ⟨rfl, ?_, ?_, ?_, ?_, ?_⟩
  · intro flags rigName rows hmem r hr
    obtain ⟨i, hi⟩ := table_rows_of_run env flags rigName rows hmem r hr
    rw [hi]
    rfl
  · intro hopen hblock
    simp [displayStatus, hopen, hblock]
  · intro hopen hnil hcount
    have hnot : ¬ (issue.BlockedBy.length > 0 ∨ issue.BlockedByCount > 0) := by
      rw [hnil]
      simp
      omega
    simp only [displayStatus, hopen, if_true, hnot, if_false]
  · intro hne
    simp [displayStatus, hne]
  · unfold displayStatus
    split
    · split
      · exact Or.inl rfl
      · exact Or.inr (Or.inl rfl)
    · exact Or.inr (Or.inr rfl)

/-! ## The reject command -/

/-- C3, as the code has it. When the flag `--reason` is absent from the command
line, the reject command returns an error before `runMQReject` runs: no store
call is issued, nothing is printed and the store is unchanged, for every
environment, every rig name and every MR identifier. -/
theorem executeReject_reason_absent {σ : Type} (env : RejectEnv σ) (cobra : CobraErrors)
    (args : List String) (notify : Option Bool) (store : σ) :
    (executeReject env cobra { args := args, reason := none, notify := notify } store).err.isSome
      = true ∧
    (executeReject env cobra { args := args, reason := none, notify := notify } store).calls = [] ∧
    (executeReject env cobra { args := args, reason := none, notify := notify } store).stdout = [] ∧
    (executeReject env cobra { args := args, reason := none, notify := notify } store).store
      = store := by
  unfold executeReject
  split <;> simp

/-- C3 fails as stated. A reason given as the empty string passes the
required-flag check: on the rig `gastown` the command `reject gastown mr-1
--reason ""` returns no error and calls `RejectMR` with the empty reason, and
the MR ends rejected. -/
theorem executeReject_empty_reason_reaches_store :
    (executeReject exampleRejectEnv exampleCobra
        { args := ["gastown", "mr-1"], reason := some "", notify := none }
        [mrNux, taskIssue, mrToast]).err = none ∧
    (executeReject exampleRejectEnv exampleCobra
        { args := ["gastown", "mr-1"], reason := some "", notify := none }
        [mrNux, taskIssue, mrToast]).calls = [StoreCall.RejectMR "mr-1" "" false] ∧
    statusOf (executeReject exampleRejectEnv exampleCobra
        { args := ["gastown", "mr-1"], reason := some "", notify := none }
        [mrNux, taskIssue, mrToast]).store "mr-1" = some "rejected" := by
  decide

/-- C4, as the code has it. When the rig resolves to a manager, `runMQReject`
issues exactly one store call, `RejectMR` with the identifier, the reason and
the notify flag unchanged; the store after the run is the store that this one
call leaves, so every issue whose status the call leaves alone (the source
issue named by `IssueID`, by the contract of the manager) has the same status
after the run as before. When the rig does not resolve, the lookup error is
returned, no store call is issued and the store is unchanged. -/
theorem runMQReject_single_store_call {σ : Type} (env : RejectEnv σ) (reason : String)
    (notify : Bool) (rigName mrIDOrBranch : String) (store : σ) :
    (∀ mgr : Manager σ, env.getRefineryManager rigName = .ok mgr →
      (runMQReject env reason notify rigName mrIDOrBranch store).calls
        = [StoreCall.RejectMR mrIDOrBranch reason notify] ∧
      (runMQReject env reason notify rigName mrIDOrBranch store).store
        = (mgr.RejectMR mrIDOrBranch reason notify store).2 ∧
      (∀ (status : σ → String → Option String) (issueID : String),
        status (mgr.RejectMR mrIDOrBranch reason notify store).2 issueID = status store issueID →
        status (runMQReject env reason notify rigName mrIDOrBranch store).store issueID
          = status store issueID)) ∧
    (∀ err : GoError, env.getRefineryManager rigName = .error err →
      (runMQReject env reason notify rigName mrIDOrBranch store).calls = [] ∧
      (runMQReject env reason notify rigName mrIDOrBranch store).err = some err ∧
      (runMQReject env reason notify rigName mrIDOrBranch store).store = store) := by
  constructor
  · intro mgr hrig
    have hstore : (runMQReject env reason notify rigName mrIDOrBranch store).store
        = (mgr.RejectMR mrIDOrBranch reason notify store).2 := by
      unfold runMQReject
      rw [hrig]
      simp only
      split <;> simp_all
    refine ⟨?_, hstore, ?_⟩
    · unfold runMQReject
      rw [hrig]
      simp only
      split <;> rfl
    · intro status issueID h
      rw [hstore]
      exact h
  · intro err hrig
    unfold runMQReject
    rw [hrig]
    exact ⟨rfl, rfl, rfl⟩

/-- Instance of C4: rejecting `mr-1` on the rig `gastown` with notification
issues the single call `RejectMR "mr-1" "superseded" true`, and the source
issue `gt-xyz` that the result names is as open afterwards as before. -/
theorem runMQReject_single_store_call_witness :
    (runMQReject exampleRejectEnv "superseded" true "gastown" "mr-1"
        [mrNux, taskIssue, mrToast]).calls = [StoreCall.RejectMR "mr-1" "superseded" true] ∧
    statusOf (runMQReject exampleRejectEnv "superseded" true "gastown" "mr-1"
        [mrNux, taskIssue, mrToast]).store "gt-xyz" = statusOf [mrNux, taskIssue, mrToast] "gt-xyz" ∧
    statusOf (runMQReject exampleRejectEnv "superseded" true "gastown" "mr-1"
        [mrNux, taskIssue, mrToast]).store "mr-1" = some "rejected" :=
  have h := (runMQReject_single_store_call exampleRejectEnv "superseded" true "gastown" "mr-1"
    [mrNux, taskIssue, mrToast]).1 { RejectMR := specRejectMR exampleFields (fun _ => "gt-xyz") }
    rfl
  ⟨h.1, h.2.2 statusOf "gt-xyz" (by decide), by decide⟩

/-- C4 fails as stated for a rig that does not resolve: `runMQReject` on the
unknown rig `nowhere` returns the lookup error and issues no store call at
all, so not exactly one. -/
theorem runMQReject_unknown_rig_no_call :
    (runMQReject exampleRejectEnv "superseded" false "nowhere" "mr-1"
        [mrNux, taskIssue, mrToast]).calls = [] ∧
    (runMQReject exampleRejectEnv "superseded" false "nowhere" "mr-1"
        [mrNux, taskIssue, mrToast]).err = some (GoError.leaf "rig not found: nowhere") := by
  decide

/-! ## Base query and error propagation -/

/-- The calls of a run are those of lines 16-92. -/
theorem runMQList_calls (env : ListEnv) (flags : MQListFlags) (rigName : String) :
    (runMQList env flags rigName).calls = (queryAndFilter env flags rigName).1 := by
  unfold runMQList
  rcases queryAndFilter env flags rigName with ⟨calls, r⟩
  cases r with
  | error err => rfl
  | ok filtered =>
    simp only
    split_ifs <;> rfl

/-- After a resolved rig, lines 16-92 are the base query followed by the filter loop. -/
theorem queryAndFilter_resolved (env : ListEnv) (flags : MQListFlags) (rigName path : String)
    (hrig : env.getRefineryManager rigName = .ok path) :
    queryAndFilter env flags rigName
      = ((baseQuery (env.beadsNew path) flags (buildListOptions flags)).1,
         match (baseQuery (env.beadsNew path) flags (buildListOptions flags)).2 with
         | .error err => .error err
         | .ok issues => .ok (applyFilters env flags issues)) := by
  unfold queryAndFilter
  rw [hrig]
  simp only
  rcases baseQuery (env.beadsNew path) flags (buildListOptions flags) with ⟨calls, r⟩
  cases r <;> rfl

/-- C9. When the rig resolves: without `readyOnly` the run issues exactly one
store call, `List` with `Type = "merge-request"`, `Priority = -1` and `Status`
the status criterion when it is non-empty and `"open"` when it is empty, and
`Ready` is not called; with `readyOnly` the run issues exactly the call `Ready`,
`List` is not called, and a run with any other status criterion is the same run
(same error, same calls, same output). -/
theorem runMQList_base_query (env : ListEnv) (flags : MQListFlags) (rigName path : String)
    (hrig : env.getRefineryManager rigName = .ok path) :
    (flags.mqListReady = false →
      (runMQList env flags rigName).calls
        = [StoreCall.List (ListOptions.mk "merge-request" (-1)
            (if flags.mqListStatus ≠ "" then flags.mqListStatus else "open"))] ∧
      StoreCall.Ready ∉ (runMQList env flags rigName).calls) ∧
    (flags.mqListReady = true →
      (runMQList env flags rigName).calls = [StoreCall.Ready] ∧
      (∀ opts, StoreCall.List opts ∉ (runMQList env flags rigName).calls) ∧
      (∀ status : String,
        runMQList env { flags with mqListStatus := status } rigName
          = runMQList env flags rigName)) := by
  have hcalls : ∀ fl : MQListFlags, (runMQList env fl rigName).calls
      = (baseQuery (env.beadsNew path) fl (buildListOptions fl)).1 := by
    intro fl
    rw [runMQList_calls, queryAndFilter_resolved env fl rigName path hrig]
  constructor
  · intro hready
    have hopts : buildListOptions flags = ListOptions.mk "merge-request" (-1)
        (if flags.mqListStatus ≠ "" then flags.mqListStatus else "open") := by
      unfold buildListOptions
      by_cases hs : flags.mqListStatus = "" <;> simp [hs, hready]
    have hc : (runMQList env flags rigName).calls = [StoreCall.List (buildListOptions flags)] := by
      rw [hcalls]
      unfold baseQuery
      rw [hready]
      simp only [Bool.false_eq_true, if_false]
      split <;> rfl
    rw [hc, hopts]
    simp
  · intro hready
    have hc : ∀ fl : MQListFlags, fl.mqListReady = true →
        (runMQList env fl rigName).calls = [StoreCall.Ready] := by
      intro fl hfl
      rw [hcalls]
      unfold baseQuery
      rw [hfl]
      simp only [if_true]
      split <;> rfl
    refine ⟨hc flags hready, ?_, ?_⟩
    · intro opts
      rw [hc flags hready]
      simp
    · intro status
      unfold runMQList queryAndFilter
      rw [hrig]
      simp only [baseQuery, hready, if_true, applyFilters, passesFilters]

/-- Instance of C9 on the rig `gastown`: the default run asks `List` for the
open merge requests of every priority, the `readyOnly` run asks `Ready`. -/
theorem runMQList_base_query_witness :
    (runMQList exampleListEnv
        { mqListStatus := "", mqListReady := false, mqListWorker := "", mqListEpic := "",
          mqListJSON := false } "gastown").calls
      = [StoreCall.List { Type_ := "merge-request", Priority := -1, Status := "open" }] ∧
    (runMQList exampleListEnv
        { mqListStatus := "closed", mqListReady := true, mqListWorker := "", mqListEpic := "",
          mqListJSON := false } "gastown").calls = [StoreCall.Ready] :=
  ⟨((runMQList_base_query exampleListEnv _ "gastown" "gastown/.beads" rfl).1 rfl).1,
   ((runMQList_base_query exampleListEnv _ "gastown" "gastown/.beads" rfl).2 rfl).1⟩

/-- A run whose lines 16-92 end in an error returns that error and prints nothing. -/
theorem runMQList_of_error (env : ListEnv) (flags : MQListFlags) (rigName : String)
    (err : GoError) (h : (queryAndFilter env flags rigName).2 = .error err) :
    (runMQList env flags rigName).err = some err ∧ (runMQList env flags rigName).stdout = [] := by
  unfold runMQList
  rcases hq : queryAndFilter env flags rigName with ⟨calls, r⟩
  rw [hq] at h
  simp only at h
  subst h
  exact ⟨rfl, rfl⟩

/-- A run whose lines 16-92 produce `filtered` returns nil. -/
theorem runMQList_of_ok (env : ListEnv) (flags : MQListFlags) (rigName : String)
    (filtered : List Issue) (h : (queryAndFilter env flags rigName).2 = .ok filtered) :
    (runMQList env flags rigName).err = none := by
  unfold runMQList
  rcases hq : queryAndFilter env flags rigName with ⟨calls, r⟩
  rw [hq] at h
  simp only at h
  subst h
  simp only [outputJSON]
  split_ifs <;> rfl

/-- C10. Store errors are returned with added context and nothing is reported.
For every error `e` of `RejectMR`, `runMQReject` returns `e` wrapped with
`rejecting MR: ` and prints no rejection; for every error `e` of `Ready`
(with `readyOnly`) or of `List` (without), `runMQList` returns `e` wrapped with
`querying ready MRs: ` or `querying merge queue: ` and prints no listing. When
the store call succeeds the command returns nil. -/
theorem store_errors_propagated {σ : Type} (renv : RejectEnv σ) (lenv : ListEnv)
    (flags : MQListFlags) (reason : String) (notify : Bool) (rigName mrIDOrBranch : String)
    (store : σ) :
    (∀ (mgr : Manager σ) (e : GoError) (store1 : σ),
      renv.getRefineryManager rigName = .ok mgr →
      mgr.RejectMR mrIDOrBranch reason notify store = (.error e, store1) →
      (runMQReject renv reason notify rigName mrIDOrBranch store).err
        = some (GoError.wrapped "rejecting MR: " e) ∧
      ((runMQReject renv reason notify rigName mrIDOrBranch store).err.bind GoError.Unwrap)
        = some e ∧
      (runMQReject renv reason notify rigName mrIDOrBranch store).stdout = []) ∧
    (∀ (mgr : Manager σ) (result : RejectionResult) (store1 : σ),
      renv.getRefineryManager rigName = .ok mgr →
      mgr.RejectMR mrIDOrBranch reason notify store = (.ok result, store1) →
      (runMQReject renv reason notify rigName mrIDOrBranch store).err = none) ∧
    (∀ (path : String) (e : GoError),
      lenv.getRefineryManager rigName = .ok path → flags.mqListReady = true →
      (lenv.beadsNew path).Ready = .error e →
      (runMQList lenv flags rigName).err = some (GoError.wrapped "querying ready MRs: " e) ∧
      ((runMQList lenv flags rigName).err.bind GoError.Unwrap) = some e ∧
      (runMQList lenv flags rigName).stdout = []) ∧
    (∀ (path : String) (e : GoError),
      lenv.getRefineryManager rigName = .ok path → flags.mqListReady = false →
      (lenv.beadsNew path).List (buildListOptions flags) = .error e →
      (runMQList lenv flags rigName).err = some (GoError.wrapped "querying merge queue: " e) ∧
      ((runMQList lenv flags rigName).err.bind GoError.Unwrap) = some e ∧
      (runMQList lenv flags rigName).stdout = []) ∧
    (∀ (path : String) (issues : List Issue),
      lenv.getRefineryManager rigName = .ok path →
      (flags.mqListReady = true ∧ (lenv.beadsNew path).Ready = .ok issues ∨
        flags.mqListReady = false ∧
          (lenv.beadsNew path).List (buildListOptions flags) = .ok issues) →
      (runMQList lenv flags rigName).err = none) := by
  refine ⟨?_, ?_, ?_, ?_, ?_⟩
  · intro mgr e store1 hrig hcall
    unfold runMQReject
    rw [hrig]
    simp [hcall, GoError.Unwrap]
  · intro mgr result store1 hrig hcall
    unfold runMQReject
    rw [hrig]
    simp only [hcall]
  · intro path e hrig hready hq
    have h : (queryAndFilter lenv flags rigName).2
        = .error (GoError.wrapped "querying ready MRs: " e) := by
      rw [queryAndFilter_resolved lenv flags rigName path hrig]
      simp only [baseQuery, hready, if_true, hq]
    have h2 := runMQList_of_error lenv flags rigName _ h
    rw [h2.1]
    exact ⟨rfl, rfl, h2.2⟩
  · intro path e hrig hready hq
    have h : (queryAndFilter lenv flags rigName).2
        = .error (GoError.wrapped "querying merge queue: " e) := by
      rw [queryAndFilter_resolved lenv flags rigName path hrig]
      simp only [baseQuery, hready, Bool.false_eq_true, if_false, hq]
    have h2 := runMQList_of_error lenv flags rigName _ h
    rw [h2.1]
    exact ⟨rfl, rfl, h2.2⟩
  · intro path issues hrig hq
    rcases hq with ⟨hready, hq⟩ | ⟨hready, hq⟩
    · apply runMQList_of_ok lenv flags rigName (applyFilters lenv flags (keepMergeRequests issues))
      rw [queryAndFilter_resolved lenv flags rigName path hrig]
      simp only [baseQuery, hready, if_true, hq]
    · apply runMQList_of_ok lenv flags rigName (applyFilters lenv flags issues)
      rw [queryAndFilter_resolved lenv flags rigName path hrig]
      simp only [baseQuery, hready, Bool.false_eq_true, if_false, hq]

/-- Instance of C10: on the rig `broken`, whose store fails, the list command
returns the store error wrapped with `querying merge queue: ` and prints
nothing; rejecting an MR that does not exist returns the resolution error
wrapped with `rejecting MR: `. -/
theorem store_errors_propagated_witness :
    (runMQList exampleListEnv
        { mqListStatus := "", mqListReady := false, mqListWorker := "", mqListEpic := "",
          mqListJSON := false } "broken").err
      = some (GoError.wrapped "querying merge queue: " (GoError.leaf "bd list: exit status 1")) ∧
    (runMQReject exampleRejectEnv "superseded" false "gastown" "mr-9"
        [mrNux, taskIssue, mrToast]).err
      = some (GoError.wrapped "rejecting MR: " (GoError.leaf "merge request not found: mr-9")) :=
  have h := store_errors_propagated exampleRejectEnv exampleListEnv
    { mqListStatus := "", mqListReady := false, mqListWorker := "", mqListEpic := "",
      mqListJSON := false } "superseded" false "broken" "mr-9" [mrNux, taskIssue, mrToast]
  have h2 := store_errors_propagated exampleRejectEnv exampleListEnv
    { mqListStatus := "", mqListReady := false, mqListWorker := "", mqListEpic := "",
      mqListJSON := false } "superseded" false "gastown" "mr-9" [mrNux, taskIssue, mrToast]
  ⟨(h.2.2.2.1 "broken/.beads" (GoError.leaf "bd list: exit status 1") rfl rfl rfl).1,
   (h2.1 { RejectMR := specRejectMR exampleFields (fun _ => "gt-xyz") }
      (GoError.leaf "merge request not found: mr-9") [mrNux, taskIssue, mrToast] rfl rfl).1⟩

/-! ## The filters -/

/-- A loop that appends the elements passing a test is `List.filter`. -/
theorem foldl_append_eq_filter {α : Type} (p : α → Bool) (l acc : List α) :
    l.foldl (fun acc x => if p x then acc ++ [x] else acc) acc = acc ++ l.filter p := by
  induction l generalizing acc with
  | nil => simp
  | cons x xs ih =>
    simp only [List.foldl_cons, List.filter_cons]
    by_cases hx : p x = true
    · simp [hx, ih]
    · simp [hx, ih]

/-- The filter loop keeps exactly the issues that pass the loop body, in order. -/
theorem applyFilters_eq_filter (env : ListEnv) (flags : MQListFlags) (issues : List Issue) :
    applyFilters env flags issues = issues.filter (passesFilters env flags) := by
  unfold applyFilters
  rw [foldl_append_eq_filter]
  simp

/-- The type loop of the ready path keeps exactly the merge requests, in order. -/
theorem keepMergeRequests_eq_filter (allReady : List Issue) :
    keepMergeRequests allReady
      = allReady.filter (fun i => decide (i.Type_ = "merge-request")) := by
  unfold keepMergeRequests
  have h := foldl_append_eq_filter (fun i : Issue => decide (i.Type_ = "merge-request")) allReady []
  simp only [decide_eq_true_eq, List.nil_append] at h
  exact h

/-- The loop body in terms of the two criteria. -/
theorem passesFilters_iff (env : ListEnv) (flags : MQListFlags) (issue : Issue) :
    passesFilters env flags issue = true ↔
      (flags.mqListWorker = "" ∨
        strings.EqualFold env.hasUnicode (extractedWorker env issue) flags.mqListWorker = true) ∧
      (flags.mqListEpic = "" ∨
        extractedTarget env issue = "integration/" ++ flags.mqListEpic) := by
  unfold passesFilters extractedWorker extractedTarget
  by_cases hw : flags.mqListWorker = "" <;> by_cases he : flags.mqListEpic = "" <;>
    simp [hw, he]

/-- Nothing is fold-equal to the empty string but the empty string. -/
theorem EqualFold_empty_left (hasUnicode : List Char → List Char → Bool) (w : String)
    (hw : w ≠ "") : strings.EqualFold hasUnicode "" w = false := by
  unfold strings.EqualFold
  have hd : w.data ≠ [] := by
    intro h
    apply hw
    apply String.ext
    simpa using h
  cases hdata : w.data with
  | nil => exact absurd hdata hd
  | cons c cs => rfl

/-- A target `integration/<epic>` is never the empty string. -/
theorem integration_target_ne_empty (epic : String) : "" ≠ "integration/" ++ epic := by
  intro h
  have hl := congrArg String.length h
  rw [String.length_append] at hl
  have h12 : "integration/".length = 12 := by decide
  have h0 : "".length = 0 := by decide
  omega

/-- Runes are equal exactly when their code points are. -/
theorem char_eq_iff_toNat (a b : Char) : a = b ↔ a.toNat = b.toNat := by
  constructor
  · intro h; rw [h]
  · intro h
    apply Char.ext
    apply UInt32.ext
    exact h

/-- On single-byte runes the loop of `strings.EqualFold` compares the lower-cased runes. -/
theorem EqualFoldRunes_ascii (hasUnicode : List Char → List Char → Bool) (s t : List Char)
    (hs : ∀ c ∈ s, c.toNat < 128) (ht : ∀ c ∈ t, c.toNat < 128) :
    strings.EqualFoldRunes hasUnicode s t = true ↔ s.map asciiLower = t.map asciiLower := by
  induction s generalizing t with
  | nil =>
    cases t with
    | nil => simp [strings.EqualFoldRunes]
    | cons tr t => simp [strings.EqualFoldRunes]
  | cons sr s ih =>
    cases t with
    | nil => simp [strings.EqualFoldRunes]
    | cons tr t =>
      have hsr : sr.toNat < 128 := hs sr (List.mem_cons_self _ _)
      have htr : tr.toNat < 128 := ht tr (List.mem_cons_self _ _)
      have ih2 := ih t (fun c hc => hs c (List.mem_cons_of_mem _ hc))
        (fun c hc => ht c (List.mem_cons_of_mem _ hc))
      have hnot : ¬ (128 ≤ sr.toNat ∨ 128 ≤ tr.toNat) := by omega
      simp only [strings.EqualFoldRunes, hnot, if_false, List.map_cons, List.cons.injEq]
      by_cases heq : tr = sr
      · subst heq
        simp only [if_true, true_and]
        exact ih2
      · have hne : tr.toNat ≠ sr.toNat := fun h => heq ((char_eq_iff_toNat _ _).mpr h)
        simp only [heq, if_false]
        by_cases hlt : tr.toNat < sr.toNat
        · simp only [hlt, if_true]
          by_cases hc : 65 ≤ tr.toNat ∧ tr.toNat ≤ 90 ∧ sr.toNat = tr.toNat + 32
          · simp only [hc, and_self, if_true]
            rw [ih2]
            have : asciiLower sr = asciiLower tr := by
              unfold asciiLower
              split_ifs <;> omega
            simp [this]
          · simp only [hc, if_false]
            have : asciiLower sr ≠ asciiLower tr := by
              unfold asciiLower
              split_ifs <;> omega
            simp [this]
        · simp only [hlt, if_false]
          by_cases hc : 65 ≤ sr.toNat ∧ sr.toNat ≤ 90 ∧ tr.toNat = sr.toNat + 32
          · simp only [hc, and_self, if_true]
            rw [ih2]
            have : asciiLower sr = asciiLower tr := by
              unfold asciiLower
              split_ifs <;> omega
            simp [this]
          · simp only [hc, if_false]
            have : asciiLower sr ≠ asciiLower tr := by
              unfold asciiLower
              split_ifs <;> omega
            simp [this]

/-- On strings of single-byte runes `strings.EqualFold` is equality after
lower-casing `A`-`Z`: a case-insensitive exact match, with no prefix or
substring matching. -/
theorem EqualFold_ascii (hasUnicode : List Char → List Char → Bool) (s t : String)
    (hs : ∀ c ∈ s.data, c.toNat < 128) (ht : ∀ c ∈ t.data, c.toNat < 128) :
    strings.EqualFold hasUnicode s t = true ↔ s.data.map asciiLower = t.data.map asciiLower :=
  EqualFoldRunes_ascii hasUnicode s.data t.data hs ht

/-- Instance: `Nux` and `nux` are fold-equal, both being `nux` in lower case. -/
theorem EqualFold_ascii_witness :
    strings.EqualFold (fun _ _ => false) "Nux" "nux" = true ∧
    "Nux".data.map asciiLower = [110, 117, 120] :=
  ⟨(EqualFold_ascii (fun _ _ => false) "Nux" "nux" (by decide) (by decide)).mpr (by decide),
   by decide⟩

/-- C5. The worker filter is a case-insensitive exact match. With a non-empty
worker criterion and an empty epic criterion the filtered output is the
candidate list restricted, in order, to the candidates whose extracted worker
(`""` without MR fields) is equal to the criterion under `strings.EqualFold`;
so a candidate is in the output exactly when it is fold-equal, and a candidate
without MR fields is dropped. `"Nux"` is fold-equal to `"nux"`. With an empty
worker criterion the output is decided by the epic criterion alone, and with
both criteria empty it is the whole candidate list. -/
theorem worker_filter_case_insensitive (env : ListEnv) (flags : MQListFlags)
    (issues : List Issue) :
    (flags.mqListWorker ≠ "" → flags.mqListEpic = "" →
      applyFilters env flags issues
        = issues.filter (fun i =>
            strings.EqualFold env.hasUnicode (extractedWorker env i) flags.mqListWorker) ∧
      (∀ i, i ∈ applyFilters env flags issues ↔
        i ∈ issues ∧
          strings.EqualFold env.hasUnicode (extractedWorker env i) flags.mqListWorker = true) ∧
      (∀ i, env.ParseMRFields i = none → i ∉ applyFilters env flags issues)) ∧
    (flags.mqListWorker = "" →
      applyFilters env flags issues
        = issues.filter (fun i => decide (flags.mqListEpic = "" ∨
            extractedTarget env i = "integration/" ++ flags.mqListEpic)) ∧
      (flags.mqListEpic = "" → applyFilters env flags issues = issues)) ∧
    (∀ hasUnicode, strings.EqualFold hasUnicode "Nux" "nux" = true ∧
      strings.EqualFold hasUnicode "nux" "Nux" = true ∧
      strings.EqualFold hasUnicode "Nux" "nu" = false ∧
      strings.EqualFold hasUnicode "Nux" "nuxx" = false) := by
  refine ⟨?_, ?_, ?_⟩
  · intro hw he
    have heq : applyFilters env flags issues
        = issues.filter (fun i =>
            strings.EqualFold env.hasUnicode (extractedWorker env i) flags.mqListWorker) := by
      rw [applyFilters_eq_filter]
      apply List.filter_congr
      intro i _
      rw [Bool.eq_iff_iff, passesFilters_iff]
      simp [hw, he]
    refine ⟨heq, ?_, ?_⟩
    · intro i
      rw [heq, List.mem_filter]
    · intro i hnone hmem
      rw [heq, List.mem_filter] at hmem
      have hworker : extractedWorker env i = "" := by
        unfold extractedWorker
        rw [hnone]
      rw [hworker, EqualFold_empty_left env.hasUnicode _ hw] at hmem
      exact Bool.false_ne_true hmem.2
  · intro hw
    have heq : applyFilters env flags issues
        = issues.filter (fun i => decide (flags.mqListEpic = "" ∨
            extractedTarget env i = "integration/" ++ flags.mqListEpic)) := by
      rw [applyFilters_eq_filter]
      apply List.filter_congr
      intro i _
      rw [Bool.eq_iff_iff, passesFilters_iff]
      simp [hw]
    refine ⟨heq, ?_⟩
    intro he
    rw [heq, List.filter_eq_self]
    intro a _
    simp [he]
  · intro hasUnicode
    exact ⟨rfl, rfl, rfl, rfl⟩

/-- Instance of C5 on the example issues: filtering by worker `nux` keeps the
merge request of worker `Nux` and drops the one of `Toast` and the issue
without MR fields. -/
theorem worker_filter_case_insensitive_witness :
    applyFilters exampleListEnv
        { mqListStatus := "", mqListReady := false, mqListWorker := "nux", mqListEpic := "",
          mqListJSON := false } [mrNux, taskIssue, mrToast] = [mrNux] :=
  ((worker_filter_case_insensitive exampleListEnv
      { mqListStatus := "", mqListReady := false, mqListWorker := "nux", mqListEpic := "",
        mqListJSON := false } [mrNux, taskIssue, mrToast]).1 (by decide) rfl).1.trans (by decide)

/-- C6. The epic filter matches only an exact target. With a non-empty epic
criterion and an empty worker criterion the filtered output is the candidate
list restricted, in order, to the candidates whose extracted target (`""`
without MR fields) is the string `integration/` followed by the criterion; a
candidate without MR fields never matches, and the target
`integration/gastown-v2` does not match the epic `gastown`. With an empty epic
criterion the output is decided by the worker criterion alone. -/
theorem epic_filter_exact_target (env : ListEnv) (flags : MQListFlags)
    (issues : List Issue) :
    (flags.mqListEpic ≠ "" → flags.mqListWorker = "" →
      applyFilters env flags issues
        = issues.filter (fun i =>
            decide (extractedTarget env i = "integration/" ++ flags.mqListEpic)) ∧
      (∀ i, i ∈ applyFilters env flags issues ↔
        i ∈ issues ∧ extractedTarget env i = "integration/" ++ flags.mqListEpic) ∧
      (∀ i, env.ParseMRFields i = none → i ∉ applyFilters env flags issues)) ∧
    (flags.mqListEpic = "" →
      applyFilters env flags issues
        = issues.filter (fun i => decide (flags.mqListWorker = "" ∨
            strings.EqualFold env.hasUnicode (extractedWorker env i) flags.mqListWorker = true)) ∧
      (flags.mqListWorker = "" → applyFilters env flags issues = issues)) ∧
    ("integration/gastown-v2" ≠ "integration/" ++ "gastown" ∧
      "integration/gastown" = "integration/" ++ "gastown" ∧
      "Integration/gastown" ≠ "integration/" ++ "gastown") := by
  refine ⟨?_, ?_, ?_⟩
  · intro he hw
    have heq : applyFilters env flags issues
        = issues.filter (fun i =>
            decide (extractedTarget env i = "integration/" ++ flags.mqListEpic)) := by
      rw [applyFilters_eq_filter]
      apply List.filter_congr
      intro i _
      rw [Bool.eq_iff_iff, passesFilters_iff]
      simp [hw, he]
    refine ⟨heq, ?_, ?_⟩
    · intro i
      rw [heq, List.mem_filter, decide_eq_true_eq]
    · intro i hnone hmem
      rw [heq, List.mem_filter, decide_eq_true_eq] at hmem
      have htarget : extractedTarget env i = "" := by
        unfold extractedTarget
        rw [hnone]
      rw [htarget] at hmem
      exact integration_target_ne_empty _ hmem.2
  · intro he
    have heq : applyFilters env flags issues
        = issues.filter (fun i => decide (flags.mqListWorker = "" ∨
            strings.EqualFold env.hasUnicode (extractedWorker env i) flags.mqListWorker
              = true)) := by
      rw [applyFilters_eq_filter]
      apply List.filter_congr
      intro i _
      rw [Bool.eq_iff_iff, passesFilters_iff]
      simp [he]
    refine ⟨heq, ?_⟩
    intro hw
    rw [heq, List.filter_eq_self]
    intro a _
    simp [hw]
  · refine ⟨?_, ?_, ?_⟩ <;> decide

/-- Instance of C6 on the example issues: filtering by epic `gastown` keeps the
merge request that targets `integration/gastown` and drops the one that
targets `integration/gastown-v2` and the issue without MR fields. -/
theorem epic_filter_exact_target_witness :
    applyFilters exampleListEnv
        { mqListStatus := "", mqListReady := false, mqListWorker := "", mqListEpic := "gastown",
          mqListJSON := false } [mrNux, taskIssue, mrToast] = [mrNux] :=
  ((epic_filter_exact_target exampleListEnv
      { mqListStatus := "", mqListReady := false, mqListWorker := "", mqListEpic := "gastown",
        mqListJSON := false } [mrNux, taskIssue, mrToast]).1 (by decide) rfl).1.trans (by decide)

/-! ## Type restriction and order of the listing -/

/-- The blocking details list no issue of their own. -/
theorem listedIssues_blockingDetails (filtered : List Issue) :
    listedIssues (blockingDetails filtered) = [] := by
  unfold blockingDetails
  induction filtered with
  | nil => rfl
  | cons issue rest ih =>
    rw [List.filterMap_cons]
    split
    · exact ih
    · rename_i p hp
      have hform : ∃ blocker, p = Printed.waitingOn issue blocker := by
        cases hb : issue.BlockedBy with
        | nil => simp [hb] at hp
        | cons blocker more =>
          simp only [hb] at hp
          split_ifs at hp
          exact ⟨blocker, (Option.some.inj hp).symm⟩
      obtain ⟨blocker, rfl⟩ := hform
      simp only [listedIssues]
      exact ih

/-- The rows of the table are those of the issues, in order. -/
theorem map_issue_makeRow (env : ListEnv) (filtered : List Issue) :
    (filtered.map (makeRow env)).map (fun r => r.issue) = filtered := by
  induction filtered with
  | nil => rfl
  | cons issue rest ih =>
    simp only [List.map_cons, ih]
    rfl

/-- A run that gets through lines 16-92 shows exactly the issues of `filtered`. -/
theorem runMQList_listed (env : ListEnv) (flags : MQListFlags) (rigName : String)
    (filtered : List Issue) (h : (queryAndFilter env flags rigName).2 = .ok filtered) :
    listedIssues (runMQList env flags rigName).stdout = filtered := by
  unfold runMQList
  rcases hq : queryAndFilter env flags rigName with ⟨calls, r⟩
  rw [hq] at h
  simp only at h
  subst h
  simp only [outputJSON]
  split_ifs with hjson hlen
  · simp [listedIssues]
  · have hnil : filtered = [] := List.length_eq_zero.mp hlen
    simp [listedIssues, hnil]
  · have hmap := map_issue_makeRow env filtered
    have hdet := listedIssues_blockingDetails filtered
    show listedIssues (Printed.header rigName ::
      Printed.table (filtered.map (makeRow env)) :: blockingDetails filtered) = filtered
    simp only [listedIssues, hmap, hdet, List.append_nil]

/-- C7. With `readyOnly` set, on a rig that resolves and whose `Ready` query
returns `allReady`: the run returns nil, the issues it shows are the filter
loop applied to the merge requests of `allReady`, every issue shown has
`Type == "merge-request"`, and the issues of other types are discarded before
the worker and epic filters: two environments whose `ParseMRFields` agree on
the merge requests show the same issues, whatever the worker, epic and status
criteria. -/
theorem readyOnly_merge_requests_only (env : ListEnv) (flags : MQListFlags)
    (rigName path : String) (allReady : List Issue)
    (hrig : env.getRefineryManager rigName = .ok path)
    (hready : flags.mqListReady = true)
    (hquery : (env.beadsNew path).Ready = .ok allReady) :
    (runMQList env flags rigName).err = none ∧
    listedIssues (runMQList env flags rigName).stdout
      = applyFilters env flags (allReady.filter (fun i => decide (i.Type_ = "merge-request"))) ∧
    (∀ i ∈ listedIssues (runMQList env flags rigName).stdout, i.Type_ = "merge-request") ∧
    (∀ parse : Issue → Option MRFields,
      (∀ i, i.Type_ = "merge-request" → parse i = env.ParseMRFields i) →
      listedIssues (runMQList { env with ParseMRFields := parse } flags rigName).stdout
        = listedIssues (runMQList env flags rigName).stdout) := by
  have hq : ∀ e : ListEnv, e.getRefineryManager = env.getRefineryManager →
      e.beadsNew = env.beadsNew →
      (queryAndFilter e flags rigName).2
        = .ok (applyFilters e flags
            (allReady.filter (fun i => decide (i.Type_ = "merge-request")))) := by
    intro e h1 h2
    rw [queryAndFilter_resolved e flags rigName path (by rw [h1]; exact hrig)]
    simp only [baseQuery, hready, if_true, h2, hquery, keepMergeRequests_eq_filter]
  have hlisted := runMQList_listed env flags rigName _ (hq env rfl rfl)
  refine ⟨runMQList_of_ok env flags rigName _ (hq env rfl rfl), hlisted, ?_, ?_⟩
  · intro i hi
    rw [hlisted, applyFilters_eq_filter] at hi
    have hmem := (List.mem_filter.mp hi).1
    exact of_decide_eq_true (List.mem_filter.mp hmem).2
  · intro parse hagree
    rw [hlisted, runMQList_listed { env with ParseMRFields := parse } flags rigName _
      (hq { env with ParseMRFields := parse } rfl rfl)]
    rw [applyFilters_eq_filter, applyFilters_eq_filter]
    apply List.filter_congr
    intro i hi
    have hty : i.Type_ = "merge-request" := of_decide_eq_true (List.mem_filter.mp hi).2
    simp only [passesFilters, hagree i hty]

/-- Instance of C7 on the rig `gastown`: the `Ready` query returns a merge
request and a task, and the `readyOnly` run shows the merge request alone. -/
theorem readyOnly_merge_requests_only_witness :
    (exampleListEnv.beadsNew "gastown/.beads").Ready = .ok [mrNux, taskIssue] ∧
    listedIssues (runMQList exampleListEnv
        { mqListStatus := "", mqListReady := true, mqListWorker := "", mqListEpic := "",
          mqListJSON := false } "gastown").stdout = [mrNux] :=
  ⟨rfl,
   (readyOnly_merge_requests_only exampleListEnv
      { mqListStatus := "", mqListReady := true, mqListWorker := "", mqListEpic := "",
        mqListJSON := false } "gastown" "gastown/.beads" [mrNux, taskIssue] rfl rfl
      rfl).2.1.trans (by decide)⟩

/-- C8. On a rig that resolves, the issues the run shows are a subsequence of
the list the store returned, `Ready` with `readyOnly` and `List` without: only
issues the store returned, each at most as often as the store returned it, in
the same relative order; and the run returns nil, also when it shows no issue
at all (it then prints `(empty)`, or the JSON of no issue). -/
theorem runMQList_preserves_store_order (env : ListEnv) (flags : MQListFlags)
    (rigName path : String) (returned : List Issue)
    (hrig : env.getRefineryManager rigName = .ok path)
    (hquery : flags.mqListReady = true ∧ (env.beadsNew path).Ready = .ok returned ∨
      flags.mqListReady = false ∧
        (env.beadsNew path).List (buildListOptions flags) = .ok returned) :
    (listedIssues (runMQList env flags rigName).stdout).Sublist returned ∧
    (∀ i, (listedIssues (runMQList env flags rigName).stdout).count i ≤ returned.count i) ∧
    (∀ i ∈ listedIssues (runMQList env flags rigName).stdout, i ∈ returned) ∧
    (runMQList env flags rigName).err = none ∧
    (listedIssues (runMQList env flags rigName).stdout = [] →
      (runMQList env flags rigName).stdout
        = if flags.mqListJSON then [Printed.json []]
          else [Printed.header rigName, Printed.empty]) := by
  have hex : ∃ filtered, (queryAndFilter env flags rigName).2 = .ok filtered ∧
      filtered.Sublist returned := by
    rw [queryAndFilter_resolved env flags rigName path hrig]
    rcases hquery with ⟨hready, hq⟩ | ⟨hready, hq⟩
    · refine ⟨applyFilters env flags (keepMergeRequests returned), ?_, ?_⟩
      · simp only [baseQuery, hready, if_true, hq]
      · rw [applyFilters_eq_filter, keepMergeRequests_eq_filter]
        exact (List.filter_sublist _).trans (List.filter_sublist _)
    · refine ⟨applyFilters env flags returned, ?_, ?_⟩
      · simp only [baseQuery, hready, Bool.false_eq_true, if_false, hq]
      · rw [applyFilters_eq_filter]
        exact List.filter_sublist _
  obtain ⟨filtered, hok, hsub⟩ := hex
  have hlisted := runMQList_listed env flags rigName filtered hok
  rw [hlisted]
  refine ⟨hsub, fun i => hsub.count_le i, fun i hi => hsub.subset hi,
    runMQList_of_ok env flags rigName filtered hok, ?_⟩
  intro hnil
  subst hnil
  unfold runMQList
  rcases hq : queryAndFilter env flags rigName with ⟨calls, r⟩
  rw [hq] at hok
  simp only at hok
  subst hok
  simp only [outputJSON, List.length_nil, if_true]
  split_ifs <;> rfl

/-- Instance of C8 on the rig `gastown`: `List` returns the two open merge
requests in the order of the store, and the run shows both in that order; with
the worker criterion `nobody` the run shows nothing and returns nil. -/
theorem runMQList_preserves_store_order_witness :
    listedIssues (runMQList exampleListEnv
        { mqListStatus := "", mqListReady := false, mqListWorker := "", mqListEpic := "",
          mqListJSON := false } "gastown").stdout = [mrNux, mrToast] ∧
    (runMQList exampleListEnv
        { mqListStatus := "", mqListReady := false, mqListWorker := "nobody", mqListEpic := "",
          mqListJSON := false } "gastown").stdout = [Printed.header "gastown", Printed.empty] ∧
    (runMQList exampleListEnv
        { mqListStatus := "", mqListReady := false, mqListWorker := "nobody", mqListEpic := "",
          mqListJSON := false } "gastown").err = none :=
  ⟨by decide, by decide,
   (runMQList_preserves_store_order exampleListEnv
      { mqListStatus := "", mqListReady := false, mqListWorker := "nobody", mqListEpic := "",
        mqListJSON := false } "gastown" "gastown/.beads" [mrNux, mrToast] rfl
      (Or.inr ⟨rfl, rfl⟩)).2.2.2.1⟩

/-! ## Rounding lemmas -/

/-- Zero has no binary digit. -/
theorem bitLen_zero (fuel : Nat) : bitLen fuel 0 = 0 := by
  cases fuel <;> simp [bitLen]

/-- With enough fuel `bitLen` is the number of binary digits: `2 ^ (bitLen n - 1) ≤ n < 2 ^ bitLen n`. -/
theorem bitLen_spec (fuel n : Nat) (h : n ≤ fuel) (hn : 0 < n) :
    1 ≤ bitLen fuel n ∧ 2 ^ (bitLen fuel n - 1) ≤ n ∧ n < 2 ^ bitLen fuel n := by
  induction fuel generalizing n with
  | zero => omega
  | succ fuel ih =>
    have hne : n ≠ 0 := by omega
    simp only [bitLen, hne, if_false]
    by_cases h2 : n / 2 = 0
    · have h1 : n = 1 := by omega
      subst h1
      simp [bitLen_zero]
    · have hle : n / 2 ≤ fuel := by omega
      obtain ⟨hb1, hb2, hb3⟩ := ih (n / 2) hle (by omega)
      refine ⟨by omega, ?_, ?_⟩
      · have hpow : 2 ^ (bitLen fuel (n / 2) + 1 - 1) = 2 * 2 ^ (bitLen fuel (n / 2) - 1) := by
          have : bitLen fuel (n / 2) + 1 - 1 = (bitLen fuel (n / 2) - 1) + 1 := by omega
          rw [this, pow_succ]
          ring
        rw [hpow]
        omega
      · rw [pow_succ]
        omega

/-- The exponent `floorLog2` never exceeds the binary logarithm: `2 ^ floorLog2 ≤ num / den`. -/
theorem floorLog2_le (num den : Nat) (hn : 0 < num) (hd : 0 < den) :
    den * 2 ^ (floorLog2 num den).toNat ≤ num * 2 ^ (-(floorLog2 num den)).toNat := by
  unfold floorLog2
  obtain ⟨hn1, hn2, _⟩ := bitLen_spec num num le_rfl hn
  obtain ⟨hd1, _, hd3⟩ := bitLen_spec den den le_rfl hd
  generalize bitLen num num = bn at *
  generalize bitLen den den = bd at *
  simp only
  split_ifs with htest
  · exact htest
  · by_cases hcase : bd + 1 ≤ bn
    · have e1 : ((bn : Int) - (bd : Int) - 1).toNat = bn - bd - 1 := by omega
      have e2 : (-((bn : Int) - (bd : Int) - 1)).toNat = 0 := by omega
      rw [e1, e2, pow_zero, mul_one]
      have hpow : 2 ^ bd * 2 ^ (bn - bd - 1) = 2 ^ (bn - 1) := by
        rw [← pow_add]
        congr 1
        omega
      calc den * 2 ^ (bn - bd - 1) ≤ 2 ^ bd * 2 ^ (bn - bd - 1) :=
            Nat.mul_le_mul_right _ (le_of_lt hd3)
        _ = 2 ^ (bn - 1) := hpow
        _ ≤ num := hn2
    · have e1 : ((bn : Int) - (bd : Int) - 1).toNat = 0 := by omega
      have e2 : (-((bn : Int) - (bd : Int) - 1)).toNat = bd + 1 - bn := by omega
      rw [e1, e2, pow_zero, mul_one]
      have hpow : 2 ^ (bn - 1) * 2 ^ (bd + 1 - bn) = 2 ^ bd := by
        rw [← pow_add]
        congr 1
        omega
      calc den ≤ 2 ^ bd := le_of_lt hd3
        _ = 2 ^ (bn - 1) * 2 ^ (bd + 1 - bn) := hpow.symm
        _ ≤ num * 2 ^ (bd + 1 - bn) := Nat.mul_le_mul_right _ hn2

/-- Rounding to nearest does not pass an integer above the quotient. -/
theorem roundHalfEven_le (num den : Nat) (e : Int) (K : Nat) (hd : 0 < den)
    (h : num * 2 ^ (-e).toNat ≤ K * (den * 2 ^ e.toNat)) : roundHalfEven num den e ≤ K := by
  unfold roundHalfEven
  simp only
  generalize num * 2 ^ (-e).toNat = n at *
  have hdpos : 0 < den * 2 ^ e.toNat := Nat.mul_pos hd (pow_pos (by norm_num) _)
  generalize den * 2 ^ e.toNat = d at *
  have hq : n / d ≤ K := by
    apply Nat.div_le_of_le_mul
    rw [mul_comm]
    exact h
  have hdm := Nat.div_add_mod n d
  by_cases hlt : n / d < K
  · split_ifs <;> omega
  · have hqK : n / d = K := by omega
    have hr : n % d = 0 := by
      have : d * (n / d) + n % d ≤ K * d := by rw [hdm]; exact h
      rw [hqK, mul_comm] at this
      omega
    rw [hr]
    simp [hdpos, hqK]

/-- Rounding to nearest does not pass an integer below the quotient. -/
theorem le_roundHalfEven (num den : Nat) (e : Int) (K : Nat) (hd : 0 < den)
    (h : K * (den * 2 ^ e.toNat) ≤ num * 2 ^ (-e).toNat) : K ≤ roundHalfEven num den e := by
  unfold roundHalfEven
  simp only
  have hdpos : 0 < den * 2 ^ e.toNat := Nat.mul_pos hd (pow_pos (by norm_num) _)
  have hq : K ≤ num * 2 ^ (-e).toNat / (den * 2 ^ e.toNat) :=
    (Nat.le_div_iff_mul_le hdpos).mpr h
  split_ifs <;> omega


/-- Rounding a positive rational below `2 ^ (53 - b)` keeps it between an integer `lo` below it
and a multiple `hi / 2 ^ b` of `2 ^ (-b)` above it. -/
theorem roundFloat64_between (num den lo hi b : Nat) (hn : 0 < num) (hd : 0 < den)
    (hb : b ≤ 53) (hlo : lo * den ≤ num) (hhi : num * 2 ^ b ≤ hi * den)
    (hlt : num < den * 2 ^ (53 - b)) :
    (roundFloat64 (num : Int) den).Between lo hi b := by
  have hfl := floorLog2_le num den hn hd
  have hfl_le : floorLog2 num den ≤ 52 - (b : Int) := by
    by_contra hcon
    have hge : (53 - b : Nat) ≤ (floorLog2 num den).toNat := by omega
    have hneg : (-(floorLog2 num den)).toNat = 0 := by omega
    rw [hneg, pow_zero, mul_one] at hfl
    have hpow : 2 ^ (53 - b) ≤ 2 ^ (floorLog2 num den).toNat :=
      Nat.pow_le_pow_right (by norm_num) hge
    have : den * 2 ^ (53 - b) ≤ den * 2 ^ (floorLog2 num den).toNat :=
      Nat.mul_le_mul_left _ hpow
    omega
  obtain ⟨a, ha, hab⟩ : ∃ a : Nat, max (floorLog2 num den - 52) (-1074) = -(a : Int) ∧ b ≤ a := by
    refine ⟨(-(max (floorLog2 num den - 52) (-1074))).toNat, ?_, ?_⟩ <;> omega
  have hround : roundFloat64 (num : Int) den
      = ⟨(roundHalfEven num den (-(a : Int)) : Nat), -(a : Int)⟩ := by
    unfold roundFloat64
    have h0 : ¬ ((num : Int) = 0 ∨ den = 0) := by omega
    have hneg : ¬ ((num : Int) < 0) := by omega
    simp only [h0, if_false, Int.natAbs_ofNat, ha, hneg]
  have e1 : (-(-(a : Int))).toNat = a := by omega
  have e2 : (-(a : Int)).toNat = 0 := by omega
  have h2a : 0 < 2 ^ a := pow_pos (by norm_num) a
  have h2b : 0 < 2 ^ b := pow_pos (by norm_num) b
  refine ⟨roundHalfEven num den (-(a : Int)), a, hround, ?_, ?_⟩
  · apply le_roundHalfEven num den _ _ hd
    rw [e1, e2, pow_zero, mul_one]
    calc lo * 2 ^ a * den = lo * den * 2 ^ a := by ring
      _ ≤ num * 2 ^ a := Nat.mul_le_mul_right _ hlo
  · have hsplit : 2 ^ a = 2 ^ (a - b) * 2 ^ b := by
      rw [← pow_add]
      congr 1
      omega
    have hle : roundHalfEven num den (-(a : Int)) ≤ hi * 2 ^ (a - b) := by
      apply roundHalfEven_le num den _ _ hd
      rw [e1, e2, pow_zero, mul_one, hsplit]
      calc num * (2 ^ (a - b) * 2 ^ b) = num * 2 ^ b * 2 ^ (a - b) := by ring
        _ ≤ hi * den * 2 ^ (a - b) := Nat.mul_le_mul_right _ hhi
        _ = hi * 2 ^ (a - b) * den := by ring
    calc roundHalfEven num den (-(a : Int)) * 2 ^ b ≤ hi * 2 ^ (a - b) * 2 ^ b :=
          Nat.mul_le_mul_right _ hle
      _ = hi * 2 ^ a := by rw [hsplit]; ring

/-- Zero rounds to zero. -/
theorem roundFloat64_zero (den : Nat) : roundFloat64 0 den = ⟨0, 0⟩ := by
  simp [roundFloat64]

/-- Zero lies between zero and every bound. -/
theorem between_zero (hi b : Nat) : (⟨0, 0⟩ : Float64).Between 0 hi b :=
  ⟨0, 0, by simp, by simp, by simp⟩

/-- The conversion `float64(n)` is exact below `2 ^ 53`. -/
theorem ofInt_between (n : Nat) (h : n < 2 ^ 53) : (Float64.ofInt (n : Int)).Between n n 0 := by
  unfold Float64.ofInt
  by_cases h0 : n = 0
  · subst h0
    simp only [Nat.cast_zero, roundFloat64_zero]
    exact between_zero 0 0
  · apply roundFloat64_between n 1 n n 0 (by omega) (by norm_num) (by norm_num) (by simp) (by simp)
    simpa using h

/-- Numerator of a float in normal form. -/
theorem between_num (m a : Nat) : (⟨(m : Int), -(a : Int)⟩ : Float64).num = (m : Int) := by
  have e2 : (-(a : Int)).toNat = 0 := by omega
  simp [Float64.num, e2]

/-- Denominator of a float in normal form. -/
theorem between_den (m a : Nat) : (⟨(m : Int), -(a : Int)⟩ : Float64).den = 2 ^ a := by
  simp [Float64.den]

/-- The conversion `int(x)` of a float between `lo` and a bound below `lo + 1` is `lo`. -/
theorem toInt_between (x : Float64) (lo hi b : Nat) (hx : x.Between lo hi b)
    (h : hi < (lo + 1) * 2 ^ b) : x.toInt = (lo : Int) := by
  obtain ⟨m, a, rfl, hlo, hhi⟩ := hx
  unfold Float64.toInt
  rw [between_num, between_den]
  have h2a : 0 < 2 ^ a := pow_pos (by norm_num) a
  have h2b : 0 < 2 ^ b := pow_pos (by norm_num) b
  have hlt : m < (lo + 1) * 2 ^ a := by
    by_contra hcon
    have h1 : (lo + 1) * 2 ^ a * 2 ^ b ≤ m * 2 ^ b := Nat.mul_le_mul_right _ (by omega)
    have h2 : hi * 2 ^ a < (lo + 1) * 2 ^ b * 2 ^ a := Nat.mul_lt_mul_of_pos_right h h2a
    have h3 : (lo + 1) * 2 ^ a * 2 ^ b = (lo + 1) * 2 ^ b * 2 ^ a := by ring
    omega
  have hdiv : m / 2 ^ a = lo := by
    apply Nat.div_eq_of_lt_le
    · rw [mul_comm] at hlo; rw [mul_comm]; exact hlo
    · rw [mul_comm]; rw [mul_comm] at hlt; simpa [Nat.succ_eq_add_one, mul_comm] using hlt
  rw [Int.tdiv_eq_ediv (Int.ofNat_nonneg m) (Int.ofNat_nonneg _)]
  norm_cast


/-- Bounds of a quotient by an exactly represented positive integer. -/
theorem div_between (x y : Float64) (lo hi b c lo2 hi2 b2 : Nat)
    (hx : x.Between lo hi b) (hy : y.Between c c 0) (hc : 0 < c) (hb2 : b2 ≤ 53)
    (hlo2 : lo2 * c ≤ lo) (hhi2 : hi * 2 ^ b2 ≤ hi2 * c * 2 ^ b)
    (hlt : hi < c * 2 ^ b * 2 ^ (53 - b2)) :
    (x.div y).Between lo2 hi2 b2 := by
  obtain ⟨m, a, rfl, hlo, hhi⟩ := hx
  obtain ⟨mc, ac, rfl, hc1, hc2⟩ := hy
  have hmc : mc = c * 2 ^ ac := by
    simp only [pow_zero, mul_one] at hc2
    omega
  subst hmc
  unfold Float64.div
  rw [between_num, between_num, between_den, between_den]
  have hnn : ¬ (((c * 2 ^ ac : Nat) : Int) < 0) := by omega
  simp only [hnn, if_false, Int.natAbs_ofNat]
  rw [show ((m : Int) * ((2 ^ ac : Nat) : Int)) = ((m * 2 ^ ac : Nat) : Int) by push_cast; ring]
  have hP : 0 < 2 ^ a := pow_pos (by norm_num) a
  have hPc : 0 < 2 ^ ac := pow_pos (by norm_num) ac
  have hB : 0 < 2 ^ b := pow_pos (by norm_num) b
  generalize 2 ^ a = P at *
  generalize 2 ^ ac = Pc at *
  generalize 2 ^ b = B at *
  by_cases hm : m = 0
  · subst hm
    have hlo0 : lo2 = 0 := by
      have h1 : lo * P = 0 := by omega
      have h2 : lo = 0 := by
        rcases Nat.mul_eq_zero.mp h1 with h | h
        · exact h
        · omega
      have h3 : lo2 * c = 0 := by omega
      rcases Nat.mul_eq_zero.mp h3 with h | h
      · exact h
      · omega
    subst hlo0
    simp only [zero_mul, Nat.cast_zero, roundFloat64_zero]
    exact between_zero hi2 b2
  · apply roundFloat64_between _ _ lo2 hi2 b2 (Nat.mul_pos (by omega) hPc)
      (Nat.mul_pos (Nat.mul_pos hc hPc) hP) hb2
    · calc lo2 * (c * Pc * P) = lo2 * c * P * Pc := by ring
        _ ≤ lo * P * Pc := Nat.mul_le_mul_right _ (Nat.mul_le_mul_right _ hlo2)
        _ ≤ m * Pc := Nat.mul_le_mul_right _ hlo
    · have h1 : m * 2 ^ b2 * B ≤ hi2 * c * P * B := by
        calc m * 2 ^ b2 * B = m * B * 2 ^ b2 := by ring
          _ ≤ hi * P * 2 ^ b2 := Nat.mul_le_mul_right _ hhi
          _ = hi * 2 ^ b2 * P := by ring
          _ ≤ hi2 * c * B * P := Nat.mul_le_mul_right _ hhi2
          _ = hi2 * c * P * B := by ring
      have h2 : m * 2 ^ b2 ≤ hi2 * c * P := Nat.le_of_mul_le_mul_right h1 hB
      calc m * Pc * 2 ^ b2 = m * 2 ^ b2 * Pc := by ring
        _ ≤ hi2 * c * P * Pc := Nat.mul_le_mul_right _ h2
        _ = hi2 * (c * Pc * P) := by ring
    · have h1 : m * B < c * 2 ^ (53 - b2) * P * B := by
        calc m * B ≤ hi * P := hhi
          _ < c * B * 2 ^ (53 - b2) * P := Nat.mul_lt_mul_of_pos_right hlt hP
          _ = c * 2 ^ (53 - b2) * P * B := by ring
      have h2 : m < c * 2 ^ (53 - b2) * P := Nat.lt_of_mul_lt_mul_right h1
      calc m * Pc < c * 2 ^ (53 - b2) * P * Pc := Nat.mul_lt_mul_of_pos_right h2 hPc
        _ = c * Pc * P * 2 ^ (53 - b2) := by ring

/-- Bounds of the sum of an exactly represented integer and a bounded fraction. -/
theorem add_between (x y : Float64) (s hq bq : Nat)
    (hx : x.Between s s 0) (hy : y.Between 0 hq bq) (hbq : bq ≤ 53)
    (hlt : s * 2 ^ bq + hq < 2 ^ 53) :
    (x.add y).Between s (s * 2 ^ bq + hq) bq := by
  obtain ⟨mA, aA, rfl, hA1, hA2⟩ := hx
  obtain ⟨mQ, aQ, rfl, _, hQ⟩ := hy
  have hmA : mA = s * 2 ^ aA := by
    simp only [pow_zero, mul_one] at hA2
    omega
  subst hmA
  unfold Float64.add
  rw [between_num, between_num, between_den, between_den]
  rw [show (((s * 2 ^ aA : Nat) : Int) * ((2 ^ aQ : Nat) : Int) + (mQ : Int) * ((2 ^ aA : Nat) : Int))
      = ((s * 2 ^ aA * 2 ^ aQ + mQ * 2 ^ aA : Nat) : Int) by push_cast; ring]
  have hPA : 0 < 2 ^ aA := pow_pos (by norm_num) aA
  have hPQ : 0 < 2 ^ aQ := pow_pos (by norm_num) aQ
  have hBQ : 0 < 2 ^ bq := pow_pos (by norm_num) bq
  have h53 : 2 ^ 53 = 2 ^ (53 - bq) * 2 ^ bq := by
    rw [← pow_add]
    congr 1
    omega
  generalize hTe : 2 ^ (53 - bq) = T at *
  generalize 2 ^ aA = PA at *
  generalize 2 ^ aQ = PQ at *
  generalize hBQe : 2 ^ bq = BQ at *
  have hhi : (s * PA * PQ + mQ * PA) * BQ ≤ (s * BQ + hq) * (PA * PQ) := by
    calc (s * PA * PQ + mQ * PA) * BQ = s * BQ * (PA * PQ) + mQ * BQ * PA := by ring
      _ ≤ s * BQ * (PA * PQ) + hq * PQ * PA := Nat.add_le_add_left (Nat.mul_le_mul_right _ hQ) _
      _ = (s * BQ + hq) * (PA * PQ) := by ring
  by_cases hN : s * PA * PQ + mQ * PA = 0
  · rw [hN]
    have hs : s = 0 := by
      have h1 : s * PA * PQ = 0 := by omega
      rcases Nat.mul_eq_zero.mp h1 with h | h
      · rcases Nat.mul_eq_zero.mp h with h | h
        · exact h
        · omega
      · omega
    subst hs
    simp only [Nat.cast_zero, roundFloat64_zero]
    exact between_zero _ bq
  · apply roundFloat64_between _ _ s (s * BQ + hq) bq (by omega) (Nat.mul_pos hPA hPQ) hbq
    · calc s * (PA * PQ) = s * PA * PQ := by ring
        _ ≤ s * PA * PQ + mQ * PA := Nat.le_add_right _ _
    · rw [hBQe]
      exact hhi
    · rw [hTe]
      have h1 : (s * PA * PQ + mQ * PA) * BQ < PA * PQ * T * BQ := by
        calc (s * PA * PQ + mQ * PA) * BQ ≤ (s * BQ + hq) * (PA * PQ) := hhi
          _ < 2 ^ 53 * (PA * PQ) := Nat.mul_lt_mul_of_pos_right hlt (Nat.mul_pos hPA hPQ)
          _ = PA * PQ * T * BQ := by rw [h53]; ring
      exact Nat.lt_of_mul_lt_mul_right h1


/-- The float `float64(D / c) + float64(D % c) / float64(c)` lies between `D / c` and
`D / c + 1 - 2 ^ (-b)` when `c ≤ 2 ^ b` and `D / c + 1 ≤ 2 ^ (53 - b)`. -/
theorem unit_between (c b D : Nat) (hc : 0 < c) (hcb : c ≤ 2 ^ b) (hb : b ≤ 52)
    (hk : (D / c + 1) * 2 ^ b ≤ 2 ^ 53) :
    ((Float64.ofInt (Int.tdiv (D : Int) (c : Int))).add
      ((Float64.ofInt (Int.tmod (D : Int) (c : Int))).div (Float64.ofInt (c : Int)))).Between
      (D / c) (D / c * 2 ^ b + (2 ^ b - 1)) b := by
  have hB : 0 < 2 ^ b := pow_pos (by norm_num) b
  have hb52 : 2 ^ b ≤ 2 ^ 52 := Nat.pow_le_pow_right (by norm_num) hb
  have h5253 : (2 : Nat) ^ 52 < 2 ^ 53 := by norm_num
  have hdiv : Int.tdiv (D : Int) (c : Int) = ((D / c : Nat) : Int) := by
    rw [Int.tdiv_eq_ediv (Int.ofNat_nonneg D) (Int.ofNat_nonneg c)]
    norm_cast
  have hmod : Int.tmod (D : Int) (c : Int) = ((D % c : Nat) : Int) := by
    rw [Int.tmod_eq_emod (Int.ofNat_nonneg D) (Int.ofNat_nonneg c)]
    norm_cast
  rw [hdiv, hmod]
  have hn : D % c < c := Nat.mod_lt _ hc
  have hk53 : D / c < 2 ^ 53 := by
    have : (D / c + 1) * 1 ≤ (D / c + 1) * 2 ^ b := Nat.mul_le_mul_left _ hB
    omega
  have hq : ((Float64.ofInt ((D % c : Nat) : Int)).div (Float64.ofInt (c : Int))).Between
      0 (2 ^ b - 1) b := by
    apply div_between _ _ (D % c) (D % c) 0 c 0 (2 ^ b - 1) b
      (ofInt_between _ (by omega)) (ofInt_between _ (by omega)) hc (by omega) (by simp)
    · simp only [pow_zero, mul_one]
      have h1 : D % c * 2 ^ b ≤ (c - 1) * 2 ^ b := Nat.mul_le_mul_right _ (by omega)
      have h2 : (c - 1) * 2 ^ b + 2 ^ b = c * 2 ^ b := by
        have : c - 1 + 1 = c := by omega
        calc (c - 1) * 2 ^ b + 2 ^ b = (c - 1 + 1) * 2 ^ b := by ring
          _ = c * 2 ^ b := by rw [this]
      have h3 : (2 ^ b - 1) * c + c = c * 2 ^ b := by
        have : 2 ^ b - 1 + 1 = 2 ^ b := by omega
        calc (2 ^ b - 1) * c + c = (2 ^ b - 1 + 1) * c := by ring
          _ = c * 2 ^ b := by rw [this]; ring
      omega
    · simp only [pow_zero, mul_one]
      have hT : 0 < 2 ^ (53 - b) := pow_pos (by norm_num) _
      have : c * 1 ≤ c * 2 ^ (53 - b) := Nat.mul_le_mul_left _ hT
      omega
  have hsum : D / c * 2 ^ b + (2 ^ b - 1) < 2 ^ 53 := by
    have : (D / c + 1) * 2 ^ b = D / c * 2 ^ b + 2 ^ b := by ring
    omega
  exact add_between _ _ (D / c) (2 ^ b - 1) b (ofInt_between _ hk53) hq (by omega) hsum

/-- Under the same bounds its conversion to `int` is the truncated quotient. -/
theorem unit_toInt (c b D : Nat) (hc : 0 < c) (hcb : c ≤ 2 ^ b) (hb : b ≤ 52)
    (hk : (D / c + 1) * 2 ^ b ≤ 2 ^ 53) :
    ((Float64.ofInt (Int.tdiv (D : Int) (c : Int))).add
      ((Float64.ofInt (Int.tmod (D : Int) (c : Int))).div (Float64.ofInt (c : Int)))).toInt
      = Int.tdiv (D : Int) (c : Int) := by
  have hB : 0 < 2 ^ b := pow_pos (by norm_num) b
  rw [toInt_between _ _ _ _ (unit_between c b D hc hcb hb hk)]
  · rw [Int.tdiv_eq_ediv (Int.ofNat_nonneg D) (Int.ofNat_nonneg c)]
    norm_cast
  · have : (D / c + 1) * 2 ^ b = D / c * 2 ^ b + 2 ^ b := by ring
    omega

/-- Below 64 days `int(d.Hours() / 24)` is the truncated number of days. -/
theorem days_toInt (D : Nat) (hD : D < 64 * (24 * 3600000000000)) :
    ((Duration.Hours (D : Int)).div (Float64.ofInt 24)).toInt
      = Int.tdiv (D : Int) (24 * 3600000000000) := by
  have hH : (Duration.Hours (D : Int)).Between (D / 3600000000000)
      (D / 3600000000000 * 2 ^ 42 + (2 ^ 42 - 1)) 42 := by
    have h := unit_between 3600000000000 42 D (by norm_num) (by norm_num) (by norm_num)
      (by
        have : D / 3600000000000 < 1536 := by omega
        have : (D / 3600000000000 + 1) * 2 ^ 42 ≤ 1536 * 2 ^ 42 :=
          Nat.mul_le_mul_right _ (by omega)
        have h2 : (1536 : Nat) * 2 ^ 42 ≤ 2 ^ 53 := by norm_num
        omega)
    exact h
  have h24 : (Float64.ofInt 24).Between 24 24 0 := ofInt_between 24 (by norm_num)
  have hk : D / 3600000000000 / 24 = D / (24 * 3600000000000) := by
    rw [Nat.div_div_eq_div_mul]
  have hdays := div_between _ _ _ _ 42 24 (D / (24 * 3600000000000))
    ((D / (24 * 3600000000000) + 1) * 2 ^ 47 - 1) 47 hH h24 (by norm_num) (by norm_num)
    (by omega) (by norm_num; omega) (by norm_num; omega)
  rw [toInt_between _ _ _ _ hdays (by norm_num)]
  rw [Int.tdiv_eq_ediv (Int.ofNat_nonneg D) (by norm_num)]
  norm_cast


/-- For an elapsed time from zero to 64 days the code shows the truncated quotient. -/
theorem formatDuration_truncates_nonneg (d : Int) (h0 : 0 ≤ d) (h64 : d < 64 * (24 * Hour)) :
    formatDuration d = truncatedAge d := by
  obtain ⟨D, rfl⟩ := Int.eq_ofNat_of_zero_le h0
  have hS : Second = ((1000000000 : Nat) : Int) := rfl
  have hM : Minute = ((60000000000 : Nat) : Int) := by decide
  have hH : Hour = ((3600000000000 : Nat) : Int) := by decide
  have h24 : 24 * Hour = (24 * 3600000000000 : Int) := by rw [hH]; norm_num
  unfold formatDuration truncatedAge
  by_cases c1 : (D : Int) < Minute
  · simp only [c1, if_true]
    have hD : D < 60000000000 := by rw [hM] at c1; exact_mod_cast c1
    have h := unit_toInt 1000000000 30 D (by norm_num) (by norm_num) (by norm_num)
      (by
        have : D / 1000000000 < 60 := by omega
        have : (D / 1000000000 + 1) * 2 ^ 30 ≤ 60 * 2 ^ 30 := Nat.mul_le_mul_right _ (by omega)
        have h2 : (60 : Nat) * 2 ^ 30 ≤ 2 ^ 53 := by norm_num
        omega)
    unfold Duration.Seconds
    rw [hS]
    simp only [Nat.cast_ofNat] at h ⊢
    rw [h]
  · simp only [c1, if_false]
    by_cases c2 : (D : Int) < Hour
    · simp only [c2, if_true]
      have hD : D < 3600000000000 := by rw [hH] at c2; exact_mod_cast c2
      have h := unit_toInt 60000000000 36 D (by norm_num) (by norm_num) (by norm_num)
        (by
          have : D / 60000000000 < 60 := by omega
          have : (D / 60000000000 + 1) * 2 ^ 36 ≤ 60 * 2 ^ 36 :=
            Nat.mul_le_mul_right _ (by omega)
          have h2 : (60 : Nat) * 2 ^ 36 ≤ 2 ^ 53 := by norm_num
          omega)
      unfold Duration.Minutes
      rw [hM]
      simp only [Nat.cast_ofNat] at h ⊢
      rw [h]
    · simp only [c2, if_false]
      by_cases c3 : (D : Int) < 24 * Hour
      · simp only [c3, if_true]
        have hD : D < 24 * 3600000000000 := by rw [h24] at c3; exact_mod_cast c3
        have h := unit_toInt 3600000000000 42 D (by norm_num) (by norm_num) (by norm_num)
          (by
            have : D / 3600000000000 < 24 := by omega
            have : (D / 3600000000000 + 1) * 2 ^ 42 ≤ 24 * 2 ^ 42 :=
              Nat.mul_le_mul_right _ (by omega)
            have h2 : (24 : Nat) * 2 ^ 42 ≤ 2 ^ 53 := by norm_num
            omega)
        unfold Duration.Hours
        rw [hH]
        simp only [Nat.cast_ofNat] at h ⊢
        rw [h]
      · simp only [c3, if_false]
        have hD : D < 64 * (24 * 3600000000000) := by
          rw [h24] at h64
          exact_mod_cast h64
        rw [days_toInt D hD, h24]

/-! ## Negative durations -/

/-- Numerator of the opposite float. -/
theorem neg_num (x : Float64) : x.neg.num = -x.num := by
  simp [Float64.neg, Float64.num]

/-- Denominator of the opposite float. -/
theorem neg_den (x : Float64) : x.neg.den = x.den := rfl

/-- Rounding is odd: the opposite rational rounds to the opposite float. -/
theorem roundFloat64_neg (num : Int) (den : Nat) :
    roundFloat64 (-num) den = (roundFloat64 num den).neg := by
  unfold roundFloat64 Float64.neg
  by_cases h0 : num = 0
  · subst h0
    simp
  · by_cases hd : den = 0
    · simp [hd]
    · have hneg0 : ¬ (-num = 0 ∨ den = 0) := by omega
      have hnum0 : ¬ (num = 0 ∨ den = 0) := by omega
      simp only [hneg0, hnum0, if_false, Int.natAbs_neg]
      by_cases hlt : num < 0
      · have h2 : ¬ (-num < 0) := by omega
        simp [hlt, h2]
      · have h2 : -num < 0 := by omega
        simp [hlt, h2]

/-- The conversion `float64(n)` is odd. -/
theorem ofInt_neg (n : Int) : Float64.ofInt (-n) = (Float64.ofInt n).neg :=
  roundFloat64_neg n 1

/-- Division is odd in the dividend. -/
theorem div_neg (x y : Float64) : x.neg.div y = (x.div y).neg := by
  unfold Float64.div
  rw [neg_num, neg_den, ← roundFloat64_neg]
  congr 1
  split_ifs <;> simp

/-- Addition is odd. -/
theorem add_neg (x y : Float64) : x.neg.add y.neg = (x.add y).neg := by
  unfold Float64.add
  rw [neg_num, neg_num, neg_den, neg_den, ← roundFloat64_neg]
  congr 1
  ring

/-- The conversion `int(x)` is odd. -/
theorem toInt_neg (x : Float64) : x.neg.toInt = -x.toInt := by
  unfold Float64.toInt
  rw [neg_num, neg_den, Int.neg_tdiv]

/-- The remainder of Go takes the sign of the dividend. -/
theorem tmod_neg_left (a b : Int) : Int.tmod (-a) b = -(Int.tmod a b) := by
  have h1 := Int.tdiv_add_tmod (-a) b
  have h2 := Int.tdiv_add_tmod a b
  rw [Int.neg_tdiv] at h1
  linarith

/-- Method `Seconds` is odd. -/
theorem Seconds_neg (d : Int) : Duration.Seconds (-d) = (Duration.Seconds d).neg := by
  unfold Duration.Seconds
  simp only [Int.neg_tdiv, tmod_neg_left, ofInt_neg, div_neg, add_neg]

/-- For an elapsed time below zero and above -8388608 s (a timestamp up to 97
days in the future) the code shows the truncated number of seconds. -/
theorem formatDuration_truncates_neg (d : Int) (hlo : -8388608 * Second < d) (h0 : d < 0) :
    formatDuration d = truncatedAge d := by
  obtain ⟨D, hD⟩ := Int.eq_ofNat_of_zero_le (show 0 ≤ -d by omega)
  have hd : d = -(D : Int) := by omega
  subst hd
  have hS : Second = ((1000000000 : Nat) : Int) := rfl
  have hM : (0 : Int) < Minute := by decide
  have c1 : -(D : Int) < Minute := by omega
  unfold formatDuration truncatedAge
  simp only [c1, if_true]
  have hDlt : D < 8388608 * 1000000000 := by
    rw [hS] at hlo
    push_cast at hlo
    omega
  have h := unit_toInt 1000000000 30 D (by norm_num) (by norm_num) (by norm_num)
    (by
      have : D / 1000000000 < 8388608 := by omega
      have : (D / 1000000000 + 1) * 2 ^ 30 ≤ 8388608 * 2 ^ 30 :=
        Nat.mul_le_mul_right _ (by omega)
      have h2 : (8388608 : Nat) * 2 ^ 30 ≤ 2 ^ 53 := by norm_num
      omega)
  have hsec : (Duration.Seconds (D : Int)).toInt = Int.tdiv (D : Int) Second := by
    unfold Duration.Seconds
    rw [hS]
    simp only [Nat.cast_ofNat] at h ⊢
    rw [h]
  rw [Seconds_neg, toInt_neg, hsec, Int.neg_tdiv]

/-- Within -8388608 s and 64 days the code shows the truncated quotient of
the specification. -/
theorem formatDuration_truncates (d : Int) (hlo : -8388608 * Second < d)
    (hhi : d < 64 * (24 * Hour)) : formatDuration d = truncatedAge d := by
  by_cases h0 : 0 ≤ d
  · exact formatDuration_truncates_nonneg d h0 hhi
  · exact formatDuration_truncates_neg d hlo (by omega)

/-- The age of every MR whose timestamp parses, by either layout, to an
instant from 97 days after now to 64 days before now is the truncated quotient
the specification describes; a timestamp that neither layout parses gives
`?`. -/
theorem formatMRAge_truncates (clock : Clock) (createdAt : String) :
    (∀ t : Int,
      (clock.parseRFC3339 createdAt = some t ∨
        clock.parseRFC3339 createdAt = none ∧ clock.parseZulu createdAt = some t) →
      -8388608 * Second < clock.Since t → clock.Since t < 64 * (24 * Hour) →
      formatMRAge clock createdAt = truncatedAge (clock.Since t)) ∧
    (clock.parseRFC3339 createdAt = none → clock.parseZulu createdAt = none →
      formatMRAge clock createdAt = "?") := by
  constructor
  · intro t hparse hlo hhi
    unfold formatMRAge
    rcases hparse with h | ⟨h1, h2⟩
    · rw [h]
      exact formatDuration_truncates _ hlo hhi
    · rw [h1, h2]
      exact formatDuration_truncates _ hlo hhi
  · intro h1 h2
    unfold formatMRAge
    rw [h1, h2]

set_option maxRecDepth 8000 in
/-- Instance: an MR created 23 h 59 min 59 s ago has age `23h`. -/
theorem formatMRAge_truncates_witness :
    formatMRAge (exampleClock 86399000000000) "2025-01-01T00:00:00Z" = "23h" :=
  ((formatMRAge_truncates (exampleClock 86399000000000) "2025-01-01T00:00:00Z").1 0
    (Or.inl rfl) (by decide) (by decide)).trans (by decide)

/-! ## Age buckets -/

set_option maxRecDepth 8000 in
/-- The six boundaries of the buckets: 59s, 60s, 3599s, 3600s, 86399s and
86400s are shown as `59s`, `1m`, `59m`, `1h`, `23h` and `1d`; an MR created
five minutes ago has age `5m`, one created 1.5 s in the future `-1s`, and a
timestamp that does not parse gives `?`. -/
theorem formatMRAge_boundaries :
    formatMRAge (exampleClock 59000000000) "2025-01-01T00:00:00Z" = "59s" ∧
    formatMRAge (exampleClock 60000000000) "2025-01-01T00:00:00Z" = "1m" ∧
    formatMRAge (exampleClock 3599000000000) "2025-01-01T00:00:00Z" = "59m" ∧
    formatMRAge (exampleClock 3600000000000) "2025-01-01T00:00:00Z" = "1h" ∧
    formatMRAge (exampleClock 86399000000000) "2025-01-01T00:00:00Z" = "23h" ∧
    formatMRAge (exampleClock 86400000000000) "2025-01-01T00:00:00Z" = "1d" ∧
    formatMRAge (exampleClock 300000000000) "2025-01-01T00:00:00Z" = "5m" ∧
    formatMRAge (exampleClock (-1500000000)) "2025-01-01T00:00:00Z" = "-1s" ∧
    formatMRAge (exampleClock 300000000000) "yesterday" = "?" := by
  decide

set_option maxRecDepth 8000 in
/-- C2 fails on the code. An MR created 171 days less one nanosecond ago
(elapsed 14774399999999999 ns, at least 24 hours) is shown as `171d` although
the elapsed time divided by 24 hours, truncated, is 170: `d.Hours()` is the
`float64` nearest to 4103.99999999999972, which is 4104, and 4104 / 24 is 171.
A timestamp 16777216.999999999 s in the future (elapsed
-16777216999999999 ns, below one minute) is shown as `-16777217s` although the
elapsed time divided by one second, truncated toward zero, is -16777216. -/
theorem formatMRAge_rounds_away_from_truncation :
    formatMRAge (exampleClock 14774399999999999) "2025-01-01T00:00:00Z" = "171d" ∧
    (exampleClock 14774399999999999).Since 0 = 14774399999999999 ∧
    24 * Hour ≤ (14774399999999999 : Int) ∧
    Int.tdiv 14774399999999999 (24 * Hour) = 170 ∧
    truncatedAge 14774399999999999 = "170d" ∧
    Duration.Hours 14774399999999999 = Float64.ofInt 4104 ∧
    formatMRAge (exampleClock (-16777216999999999)) "2025-01-01T00:00:00Z" = "-16777217s" ∧
    (-16777216999999999 : Int) < Minute ∧
    Int.tdiv (-16777216999999999) Second = -16777216 ∧
    truncatedAge (-16777216999999999) = "-16777216s" := by
  decide

set_option maxRecDepth 8000 in
/-- The example of the specification: the open merge request `mr-1` without
blockers, created five minutes ago, has display status `ready` and age `5m`;
the blocked one is listed as `blocked` with its first blocker below the table. -/
theorem example_listing :
    makeRow exampleListEnv mrNux
      = { issue := mrNux, displayStatus := "ready", styledStatus := "ready", priority := "P2",
          branch := "polecat/Nux/gt-xyz", worker := "Nux", age := "5m" } ∧
    (runMQList exampleListEnv
        { mqListStatus := "", mqListReady := false, mqListWorker := "", mqListEpic := "",
          mqListJSON := false } "gastown").stdout
      = [Printed.header "gastown",
         Printed.table [makeRow exampleListEnv mrNux, makeRow exampleListEnv mrToast],
         Printed.waitingOn mrToast "gt-7"] := by
  decide

end Gastown
